import Mathlib

/-!
# Verification of the Wavefront line-protocol parser and profiling estimators

Shallow embedding of `src/profiling/spark-jobs/wavefront_profiler.py`.

Modelling conventions:
* Python strings are Lean `String`s (sequences of code points); `len`, slicing and
  `str.split()` / `str.strip()` are modelled on the underlying `List Char`.
* The regular expressions of `WavefrontParser` are hand-translated into
  deterministic scanners that implement the exact leftmost / greedy / backtracking
  behaviour of CPython `re` on the patterns that occur in the source.  Character
  classes (`\s`, `\d`, `\w`) are modelled over their ASCII ranges; the inputs of
  `parse_line` are single text lines produced by a line reader, so they contain
  no `'\n'` and the `$` / `.`-versus-newline subtleties of `re` do not arise for
  reachable inputs (the scanners still cut `.*` at `'\n'` where the pattern does).
* Python `float(...)` is modelled by `pyFloat?` over exact rationals
  (`PyFloat.finite`), with the `inf` / `nan` spellings recognised as in CPython;
  numeric comparisons of the profiler are modelled over `ℚ`, which agrees with
  IEEE doubles for every sample size the code can produce (samples are capped
  at 1000 elements).  Python `int(...)` is `pyInt?`.
* Python dicts keep insertion order and update in place; tag maps are modelled
  as association lists with `tagsInsert`.
-/

set_option maxHeartbeats 1000000

namespace Wavefront

/-- ASCII whitespace, as matched by `str.split()` / `str.strip()` and `\s`. -/
def isPySpace (c : Char) : Bool :=
  c = ' ' || c = '\t' || c = '\n' || c = '\r' || c = '\x0b' || c = '\x0c'

/-- ASCII digit, the `\d` class and the digits accepted by `int` / `float`. -/
def isDigitC (c : Char) : Bool :=
  48 ≤ c.toNat && c.toNat ≤ 57

/-- The `\w` word class (ASCII range): letters, digits, underscore. -/
def isWordC (c : Char) : Bool :=
  (65 ≤ c.toNat && c.toNat ≤ 90) || (97 ≤ c.toNat && c.toNat ≤ 122) ||
    (48 ≤ c.toNat && c.toNat ≤ 57) || c = '_'

/-- ASCII letter. -/
def isAlphaC (c : Char) : Bool :=
  (65 ≤ c.toNat && c.toNat ≤ 90) || (97 ≤ c.toNat && c.toNat ≤ 122)

/-- ASCII letter or digit, the first-character class of `METRIC_NAME_PATTERN`. -/
def isAlnumC (c : Char) : Bool :=
  isAlphaC c || isDigitC c

/-- Characters allowed after the first one in a bare metric name:
`[a-zA-Z0-9._-]` in `METRIC_NAME_PATTERN`. -/
def isNameC (c : Char) : Bool :=
  isAlnumC c || c = '.' || c = '_' || c = '-'

/-- Lower-case hex digit, the `[a-f0-9]` class of the UUID pattern. -/
def isLowerHexC (c : Char) : Bool :=
  (97 ≤ c.toNat && c.toNat ≤ 102) || isDigitC c

/-- Lower-case an ASCII letter (for the case-insensitive `inf`/`nan` spellings). -/
def lowerC (c : Char) : Char :=
  if 65 ≤ c.toNat && c.toNat ≤ 90 then Char.ofNat (c.toNat + 32) else c

/-- `str.strip()` on the character list. -/
def stripChars (l : List Char) : List Char :=
  ((l.dropWhile isPySpace).reverse.dropWhile isPySpace).reverse

/-- `line.strip()`. -/
def pyStrip (s : String) : String :=
  String.mk (stripChars s.data)

/-- `line.startswith('#')`. -/
def startsWithHash (s : String) : Bool :=
  match s.data with
  | '#' :: _ => true
  | _ => false

/-- Accumulator pass of `str.split()`: split on runs of whitespace, dropping
empty fields. -/
def splitAux : List Char → List Char → List (List Char)
  | [], acc => if acc.length = 0 then [] else [acc.reverse]
  | c :: r, acc =>
      if isPySpace c then
        if acc.length = 0 then splitAux r [] else acc.reverse :: splitAux r []
      else splitAux r (c :: acc)

/-- `line.split()` (no separator argument). -/
def pySplit (s : String) : List String :=
  (splitAux s.data []).map String.mk

/-- `' '.join(parts)`. -/
def joinSpaceChars : List (List Char) → List Char
  | [] => []
  | [a] => a
  | a :: b :: r => a ++ ' ' :: joinSpaceChars (b :: r)

/-- `' '.join(parts)` on strings. -/
def joinSpace (l : List String) : String :=
  String.mk (joinSpaceChars (l.map String.data))

/-- Value of a (non-empty) digit string, most significant digit first. -/
def digitsVal (l : List Char) : Nat :=
  l.foldl (fun a c => a * 10 + (c.toNat - 48)) 0

/-- Value of a digit string given as a `String`. -/
def digitsValS (s : String) : Nat :=
  digitsVal s.data

/-- Result of Python `float(...)`: a finite value (kept exact as a rational),
a signed infinity, or a NaN. -/
inductive PyFloat where
  | finite (q : ℚ)
  | infinite (neg : Bool)
  | nan
deriving DecidableEq, Repr

/-- The decimal-number part of the `float` grammar:
`digits [. digits] [(e|E) [sign] digits]`, at least one digit in the mantissa. -/
def parseDecimal (l : List Char) : Option ℚ :=
  let ip := l.takeWhile isDigitC
  let l1 := l.dropWhile isDigitC
  let fp := match l1 with
    | '.' :: r => r.takeWhile isDigitC
    | _ => []
  let l2 := match l1 with
    | '.' :: r => r.dropWhile isDigitC
    | _ => l1
  if ip.length + fp.length = 0 then none
  else
    let mant : ℚ := (digitsVal (ip ++ fp) : ℚ) / ((10 : ℚ) ^ fp.length)
    match l2 with
    | [] => some mant
    | e :: r =>
      if e = 'e' || e = 'E' then
        let eneg := match r with
          | '-' :: _ => true
          | _ => false
        let r1 := match r with
          | '+' :: rr => rr
          | '-' :: rr => rr
          | rr => rr
        let ed := r1.takeWhile isDigitC
        if ed.length = 0 then none
        else if (r1.dropWhile isDigitC).length ≠ 0 then none
        else some (mant * (if eneg then ((10 : ℚ) ^ digitsVal ed)⁻¹
                           else (10 : ℚ) ^ digitsVal ed))
      else none

/-- Python `float(s)`: strip whitespace, optional sign, then either an
`inf`/`infinity`/`nan` spelling (case-insensitive) or a decimal number.
`none` models the `ValueError` path. -/
def pyFloat? (s : String) : Option PyFloat :=
  let l0 := stripChars s.data
  let neg := match l0 with
    | '-' :: _ => true
    | _ => false
  let l := match l0 with
    | '+' :: r => r
    | '-' :: r => r
    | r => r
  let low := l.map lowerC
  if low = ['i', 'n', 'f'] || low = ['i', 'n', 'f', 'i', 'n', 'i', 't', 'y'] then
    some (.infinite neg)
  else if low = ['n', 'a', 'n'] then some .nan
  else
    match parseDecimal l with
    | some q => some (.finite (if neg then -q else q))
    | none => none

/-- Python `int(s)` (decimal): strip whitespace, optional sign, digits.
`none` models the `ValueError` path. -/
def pyInt? (s : String) : Option Int :=
  let l0 := stripChars s.data
  let neg := match l0 with
    | '-' :: _ => true
    | _ => false
  let l := match l0 with
    | '+' :: r => r
    | '-' :: r => r
    | r => r
  if l.length = 0 then none
  else if l.all isDigitC then
    some (if neg then -(digitsVal l : Int) else (digitsVal l : Int))
  else none

/-- Scanner for the quoted-string body `[^"\\]*(?:\\.[^"\\]*)*"` (the part after
the opening quote).  Returns the raw captured content (escapes kept) and the
remainder after the closing quote; `none` when the regex alternative fails
(no closing quote, or a backslash before a newline / end of input). -/
def scanQuoted : List Char → Option (List Char × List Char)
  | [] => none
  | '"' :: r => some ([], r)
  | '\\' :: r =>
      match r with
      | [] => none
      | c :: r2 =>
          if c = '\n' then none
          else
            match scanQuoted r2 with
            | some (b, rest) => some ('\\' :: c :: b, rest)
            | none => none
  | c :: r =>
      match scanQuoted r with
      | some (b, rest) => some (c :: b, rest)
      | none => none

/-- Result of matching `METRIC_NAME_PATTERN` against `parts[0]` followed by the
Python expression `match.group(1) or match.group(2)`:

* `noMatch`: the regex does not match (`return None` in `_parse_metric`);
* `raiseErr`: the quoted alternative matched an empty name, so
  `group(1) or group(2)` is Python `None` and the subsequent
  `DELTA_PATTERN.match(None)` raises `TypeError` (caught by `parse_line`);
* `name s`: the effective metric name. -/
inductive NameRes where
  | noMatch
  | raiseErr
  | name (s : String)
deriving DecidableEq, Repr

/-- Match `METRIC_NAME_PATTERN = ^"([^"\\]*(?:\\.[^"\\]*)*)"|([a-zA-Z0-9][a-zA-Z0-9._-]*)`
at the start of the token and apply `group(1) or group(2)`. -/
def metricNameRes (tok : String) : NameRes :=
  match tok.data with
  | [] => .noMatch
  | '"' :: r =>
      match scanQuoted r with
      | some (b, _) => if b.length = 0 then .raiseErr else .name (String.mk b)
      | none => .noMatch
  | c :: r =>
      if isAlnumC c then .name (String.mk (c :: r.takeWhile isNameC)) else .noMatch

/-- `DELTA_PATTERN = ^[∆Δ](.+)` applied to the metric name: strip a leading
delta symbol when something follows it.  Returns `(is_delta, name)`. -/
def deltaStrip (n : String) : Bool × String :=
  match n.data with
  | [] => (false, n)
  | c :: r =>
      if (c = '∆' || c = 'Δ') && r.length ≠ 0 then (true, String.mk r) else (false, n)

/-- Try to match `source=(?:"([^"\\]*(?:\\.[^"\\]*)*)"|([^\s]+))` at the head of
`l`.  Returns the Python value of `group(1) or group(2)` (`none` models Python
`None`, produced by an empty quoted source) and the length of the whole match. -/
def trySource (l : List Char) : Option (Option String × Nat) :=
  if "source=".data.isPrefixOf l then
    let r := l.drop 7
    match r with
    | '"' :: r2 =>
        match scanQuoted r2 with
        | some (b, _) =>
            some ((if b.length = 0 then none else some (String.mk b)),
                  7 + 1 + b.length + 1)
        | none =>
            let run := r.takeWhile (fun c => !isPySpace c)
            if run.length = 0 then none else some (some (String.mk run), 7 + run.length)
    | _ =>
        let run := r.takeWhile (fun c => !isPySpace c)
        if run.length = 0 then none else some (some (String.mk run), 7 + run.length)
  else none

/-- Leftmost-match scan for the `source=` regex (`re.search`).  Returns the
group value and the `(start, end)` span of the match. -/
def findSourceAux : Nat → Nat → List Char → Option (Option String × Nat × Nat)
  | 0, _, _ => none
  | _, _, [] => none
  | fuel + 1, pos, c :: r =>
      match trySource (c :: r) with
      | some (v, len) => some (v, pos, pos + len)
      | none => findSourceAux fuel (pos + 1) r

/-- `re.search(r'source=(?:"..."|([^\s]+))', remaining)`. -/
def findSource (s : String) : Option (Option String × Nat × Nat) :=
  findSourceAux s.data.length 0 s.data

/-- `remaining[:a] + remaining[b:]`. -/
def spliceOut (s : String) (a b : Nat) : String :=
  String.mk (s.data.take a ++ s.data.drop b)

/-- Try to match `\b(\d{10})\b` at the head of `l`, where `prev` is the
character before the match position (`none` at the start of the string). -/
def tryTimestamp (prev : Option Char) (l : List Char) : Option Nat :=
  let run10 := l.take 10
  if run10.length = 10 && run10.all isDigitC
      && (match prev with | some p => !isWordC p | none => true)
      && (match l.drop 10 with | [] => true | c :: _ => !isWordC c) then
    some (digitsVal run10)
  else none

/-- Leftmost-match scan for `\b(\d{10})\b` (`re.search`).  Returns the numeric
value and the `(start, end)` span. -/
def findTsAux : Nat → Option Char → Nat → List Char → Option (Nat × Nat × Nat)
  | 0, _, _, _ => none
  | _, _, _, [] => none
  | fuel + 1, prev, pos, c :: r =>
      match tryTimestamp prev (c :: r) with
      | some v => some (v, pos, pos + 10)
      | none => findTsAux fuel (some c) (pos + 1) r

/-- `re.search(r'\b(\d{10})\b', remaining)`. -/
def findTimestamp (s : String) : Option (Nat × Nat × Nat) :=
  findTsAux s.data.length none 0 s.data

/-- One match of `TAG_PATTERN = (\w+)=(?:"([^"\\]*(?:\\.[^"\\]*)*)"|([^\s]+))`:
the key, the raw captured value and whether the quoted alternative matched. -/
structure TagMatch where
  key : String
  raw : String
  quoted : Bool
deriving DecidableEq, Repr

/-- The `[^\s]+` value alternative of `TAG_PATTERN` (taken when the quoted
alternative does not apply): the maximal non-space run after the `=`. -/
def tryTagRun (l r2 : List Char) : Option (TagMatch × Nat) :=
  if (r2.takeWhile (fun c => !isPySpace c)).length = 0 then none
  else
    some (⟨String.mk (l.takeWhile isWordC), String.mk (r2.takeWhile (fun c => !isPySpace c)), false⟩,
          (l.takeWhile isWordC).length + 1 + (r2.takeWhile (fun c => !isPySpace c)).length)

/-- Try to match `TAG_PATTERN` at the head of `l`; returns the match and its
length. -/
def tryTag (l : List Char) : Option (TagMatch × Nat) :=
  match l with
  | [] => none
  | c :: _ =>
      if isWordC c then
        match l.drop (l.takeWhile isWordC).length with
        | '=' :: r2 =>
            match r2 with
            | '"' :: r3 =>
                match scanQuoted r3 with
                | some (b, _) =>
                    some (⟨String.mk (l.takeWhile isWordC), String.mk b, true⟩,
                          (l.takeWhile isWordC).length + 1 + 1 + b.length + 1)
                | none => tryTagRun l r2
            | _ => tryTagRun l r2
        | _ => none
      else none

/-- `TAG_PATTERN.finditer`: non-overlapping leftmost matches, scanning left to
right. -/
def tagScanAux : Nat → List Char → List TagMatch
  | 0, _ => []
  | _, [] => []
  | fuel + 1, c :: r =>
      match tryTag (c :: r) with
      | some (t, len) => t :: tagScanAux fuel ((c :: r).drop len)
      | none => tagScanAux fuel r

/-- All matches of `TAG_PATTERN` in `s`. -/
def tagFinditer (s : String) : List TagMatch :=
  tagScanAux s.data.length s.data

/-- `str.replace(pat, rep)`: left-to-right, non-overlapping (`pat` non-empty). -/
def replaceAll (pat rep : List Char) : Nat → List Char → List Char
  | 0, l => l
  | _, [] => []
  | fuel + 1, c :: r =>
      if pat.isPrefixOf (c :: r) then rep ++ replaceAll pat rep fuel ((c :: r).drop pat.length)
      else c :: replaceAll pat rep fuel r

/-- `value.replace('\\"', '"').replace('\\\\', '\\')` — the un-escaping applied
to quoted tag values. -/
def unescapeQuoted (s : String) : String :=
  let l1 := replaceAll ['\\', '"'] ['"'] s.data.length s.data
  String.mk (replaceAll ['\\', '\\'] ['\\'] l1.length l1)

/-- Python-dict assignment `tags[key] = value`: update in place if the key
exists (keeping its position), else append. -/
def tagsInsert (l : List (String × String)) (k v : String) : List (String × String) :=
  if l.any (fun kv => kv.1 == k) then
    l.map (fun kv => if kv.1 = k then (k, v) else kv)
  else l ++ [(k, v)]

/-- A dynamically-typed Python value as stored in the `"value"` field of a
metric record: the parsed float, a tag-value string (the local variable
`value` is reused by the tag loop), or Python `None`. -/
inductive PyVal where
  | num (f : PyFloat)
  | str (s : String)
  | null
deriving DecidableEq, Repr

/-- One iteration of the tag loop of `_parse_metric` / `_parse_span`:
`value = m.group(2) or m.group(3); if value: (unescape if quoted); tags[key] = value`.
The second component tracks the loop variable `value` after the iteration. -/
def tagStep (acc : List (String × String) × PyVal) (t : TagMatch) :
    List (String × String) × PyVal :=
  if t.quoted && t.raw.data.length = 0 then (acc.1, .null)
  else if t.quoted then
    (tagsInsert acc.1 t.key (unescapeQuoted t.raw), .str (unescapeQuoted t.raw))
  else (tagsInsert acc.1 t.key t.raw, .str t.raw)

/-- The whole tag loop, starting from an empty dict and the given prior value
of the local variable `value`. -/
def tagLoop (ms : List TagMatch) (init : PyVal) : List (String × String) × PyVal :=
  ms.foldl tagStep ([], init)

/-- A metric record (`{"type": "metric", ...}`). -/
structure MetricRec where
  metric : String
  value : PyVal
  timestamp : Option Nat
  source : Option String
  tags : List (String × String)
  is_delta : Bool
  line_length : Nat
deriving DecidableEq, Repr

/-- A histogram record (`{"type": "histogram", ...}`). -/
structure HistoRec where
  granularity : String
  timestamp : Option Nat
  count : Nat
  centroids : List (Int × PyFloat)
  line_length : Nat
deriving DecidableEq, Repr

/-- A span record (`{"type": "span", ...}`). -/
structure SpanRec where
  operation : String
  source : String
  span_tags : List (String × String)
  start_ms : Nat
  duration_ms : Nat
deriving DecidableEq, Repr

/-- An error record (`{"type": "error", ...}`). -/
structure ErrorRec where
  line : String
  error : String
deriving DecidableEq, Repr

/-- The tagged union produced by `WavefrontParser.parse_line`. -/
inductive Record where
  | metric (m : MetricRec)
  | histogram (h : HistoRec)
  | span (s : SpanRec)
  | error (e : ErrorRec)
deriving DecidableEq, Repr

/-- The greedy centroid loop of `_parse_histogram`: consume `(int, float)` pairs
and stop (returning the partial list) at the first token that fails to form a
complete pair. -/
def parseCentroids : List String → List (Int × PyFloat)
  | a :: b :: rest =>
      match pyInt? a, pyFloat? b with
      | some c, some v => (c, v) :: parseCentroids rest
      | _, _ => []
  | _ => []

/-- Captured groups of `HISTOGRAM_PATTERN = ^(!M|!H|!D)\s+(\d+)?\s+#(\d+)\s+(.*)`. -/
structure HistoGroups where
  directive : String
  ts : Option String
  cnt : String
  rest : String
deriving DecidableEq, Repr

/-- The `#(\d+)\s+(.*)` tail of `HISTOGRAM_PATTERN`, starting after the `#`:
a non-empty digit run (the count), at least one whitespace character, then
everything up to the end of the line (`.` stops at a newline). -/
def histoTail (l : List Char) : Option (String × String) :=
  if (l.takeWhile isDigitC).length = 0 then none
  else if ((l.drop (l.takeWhile isDigitC).length).takeWhile isPySpace).length = 0 then none
  else
    some (String.mk (l.takeWhile isDigitC),
      String.mk (((l.drop (l.takeWhile isDigitC).length).drop
        ((l.drop (l.takeWhile isDigitC).length).takeWhile isPySpace).length).takeWhile
          (fun c => c ≠ '\n')))

/-- The timestamp-present continuation of `HISTOGRAM_PATTERN`, after the
timestamp digit run: one more whitespace run, then `#` and the tail. -/
def histoTs (g : Char) (ts r3 : List Char) : Option HistoGroups :=
  if (r3.takeWhile isPySpace).length = 0 then none
  else
    match r3.drop (r3.takeWhile isPySpace).length with
    | c :: r4 =>
        if c = '#' then
          (histoTail r4).map (fun p => ⟨String.mk ['!', g], some (String.mk ts), p.1, p.2⟩)
        else none
    | [] => none

/-- `HISTOGRAM_PATTERN.match(line)`, with the regex's backtracking semantics:
with `\s+(\d+)?\s+` the optional timestamp needs one separating whitespace run
on each side, so when the timestamp is absent at least two whitespace
characters must separate the directive from `#`. -/
def histoMatch (s : String) : Option HistoGroups :=
  match s.data with
  | '!' :: g :: rest =>
      if g = 'M' || g = 'H' || g = 'D' then
        if (rest.takeWhile isPySpace).length = 0 then none
        else
          match rest.drop (rest.takeWhile isPySpace).length with
          | c :: r2' =>
              if c = '#' then
                if (rest.takeWhile isPySpace).length < 2 then none
                else (histoTail r2').map (fun p => ⟨String.mk ['!', g], none, p.1, p.2⟩)
              else if isDigitC c then
                histoTs g ((c :: r2').takeWhile isDigitC)
                  ((c :: r2').drop ((c :: r2').takeWhile isDigitC).length)
              else none
          | [] => none
      else none
  | _ => none

/-- Captured groups of `SPAN_PATTERN = ^(\S+)\s+source=(\S+)\s+(.*?)\s+(\d+)\s+(\d+)$`. -/
structure SpanGroups where
  op : String
  src : String
  middle : String
  d1 : String
  d2 : String
deriving DecidableEq, Repr

/-- `SPAN_PATTERN.match(line)` with the regex's backtracking semantics: the two
trailing groups are the last two whitespace-separated tokens (which must be all
digits), the lazy `(.*?)` takes what lies between the first whitespace run
after the source token and the whitespace before the first of the two numbers. -/
def spanMatch (s : String) : Option SpanGroups :=
  let l := s.data
  let t1 := l.takeWhile (fun c => !isPySpace c)
  if t1.length = 0 then none
  else
    let r1 := l.drop t1.length
    let w1 := r1.takeWhile isPySpace
    if w1.length = 0 then none
    else
      let r2 := r1.drop w1.length
      if !("source=".data.isPrefixOf r2) then none
      else
        let r3 := r2.drop 7
        let sv := r3.takeWhile (fun c => !isPySpace c)
        if sv.length = 0 then none
        else
          let S := r3.drop sv.length
          let pmax := (S.takeWhile isPySpace).length
          if pmax = 0 then none
          else
            let rev := S.reverse
            let d2r := rev.takeWhile isDigitC
            if d2r.length = 0 then none
            else
              let q1 := rev.drop d2r.length
              let w4 := q1.takeWhile isPySpace
              if w4.length = 0 then none
              else
                let q2 := q1.drop w4.length
                let d1r := q2.takeWhile isDigitC
                if d1r.length = 0 then none
                else
                  let q3 := q2.drop d1r.length
                  let w3 := q3.takeWhile isPySpace
                  if w3.length = 0 then none
                  else
                    let zone := w3.length + d1r.length + w4.length + d2r.length
                    let minQ := S.length - zone
                    let maxQ := minQ + w3.length - 1
                    if maxQ < 1 then none
                    else
                      let p := min pmax maxQ
                      let q := max p minQ
                      some ⟨String.mk t1, String.mk sv,
                            String.mk ((S.drop p).take (q - p)),
                            String.mk d1r.reverse, String.mk d2r.reverse⟩

/-- `_parse_histogram`: fields built from the captured groups; `full_line` is
the stripped line, whose length is recorded. -/
def mkHisto (g : HistoGroups) (t : String) : HistoRec :=
  { granularity := g.directive
    timestamp := g.ts.map digitsValS
    count := digitsValS g.cnt
    centroids := parseCentroids (pySplit g.rest)
    line_length := t.length }

/-- `_parse_span`: fields built from the captured groups; span tags come from
scanning the middle group with `TAG_PATTERN`. -/
def mkSpan (g : SpanGroups) : SpanRec :=
  { operation := g.op
    source := g.src
    span_tags := (tagLoop (tagFinditer g.middle) .null).1
    start_ms := digitsValS g.d1
    duration_ms := digitsValS g.d2 }

/-- The record built by `_parse_metric` once source and timestamp have been
handled: the tag loop runs on the remainder `rem3` starting from the parsed
float, so the record's `value` field ends up being the tag loop's final
`value` variable. -/
def mkMetricRec (t n0 : String) (v : PyFloat) (src : Option String) (ts : Option Nat)
    (rem3 : String) : MetricRec :=
  { metric := (deltaStrip n0).2
    value := (tagLoop (tagFinditer rem3) (.num v)).2
    timestamp := ts
    source := src
    tags := (tagLoop (tagFinditer rem3) (.num v)).1
    is_delta := (deltaStrip n0).1
    line_length := t.length }

/-- The optional-timestamp step of `_parse_metric`: search `\b(\d{10})\b` in
the remaining text (source already removed) and cut the first match out. -/
def metricWithTimestamp (t n0 : String) (v : PyFloat) (src : Option String)
    (rem2 : String) : MetricRec :=
  match findTimestamp rem2 with
  | some (ts, c2, d2) => mkMetricRec t n0 v src (some ts) (spliceOut rem2 c2 d2)
  | none => mkMetricRec t n0 v src none rem2

/-- The mandatory-source step of `_parse_metric`: `re.search` for the source
tag; its absence silently drops the line (`return None`), otherwise the match
is cut out of the remaining text. -/
def metricWithSource (t n0 : String) (v : PyFloat) (remaining : String) : Option MetricRec :=
  match findSource remaining with
  | none => none
  | some (src, a, b) => some (metricWithTimestamp t n0 v src (spliceOut remaining a b))

/-- `_parse_metric` on the stripped line.  `Except.error` models an exception
propagating out of `_parse_metric` (only the `DELTA_PATTERN.match(None)`
`TypeError` is reachable); `.ok none` models the silent `return None` paths. -/
def parseMetric (t : String) : Except String (Option MetricRec) :=
  match pySplit t with
  | p0 :: p1 :: p2 :: rest =>
      match metricNameRes p0 with
      | .noMatch => .ok none
      | .raiseErr => .error "expected string or bytes-like object"
      | .name n0 =>
          match pyFloat? p1 with
          | none => .ok none
          | some v => .ok (metricWithSource t n0 v (joinSpace (p2 :: rest)))
  | _ => .ok none

/-- `parse_line` after the initial `line.strip()`: drop blank and comment
lines; try the histogram pattern, then the span pattern, then the metric path;
any exception escaping the parsing body becomes an error record with the first
100 characters of the line. -/
def parseLineStripped (t : String) : Option Record :=
  if t.data.length = 0 then none
  else if startsWithHash t then none
  else
    match histoMatch t with
    | some g => some (.histogram (mkHisto g t))
    | none =>
        match spanMatch t with
        | some g => some (.span (mkSpan g))
        | none =>
            match parseMetric t with
            | .ok o => o.map .metric
            | .error e => some (.error ⟨String.mk (t.data.take 100), e⟩)

/-- `WavefrontParser.parse_line`. -/
def parseLine (s : String) : Option Record :=
  parseLineStripped (pyStrip s)

/-! ## `WavefrontProfiler._add_family_id.compute_family_id`

`sha1(family_string.encode('utf-8')).hexdigest()` is modelled by a complete
SHA-1 implementation over byte lists (`Nat`s reduced mod 2^32 word-wise). -/

/-- UTF-8 encoding of one code point. -/
def utf8Char (c : Char) : List Nat :=
  let n := c.toNat
  if n < 128 then [n]
  else if n < 2048 then [192 + n / 64, 128 + n % 64]
  else if n < 65536 then [224 + n / 4096, 128 + (n / 64) % 64, 128 + n % 64]
  else [240 + n / 262144, 128 + (n / 4096) % 64, 128 + (n / 64) % 64, 128 + n % 64]

/-- `str.encode('utf-8')` as a byte list. -/
def utf8Bytes (s : String) : List Nat :=
  (s.data.map utf8Char).flatten

/-- Reduce to a 32-bit word. -/
def w32 (n : Nat) : Nat := n % 4294967296

/-- Rotate a 32-bit word left by `b` bits. -/
def rotl (b n : Nat) : Nat := w32 (n * 2 ^ b) + n / 2 ^ (32 - b)

/-- Bitwise complement of a 32-bit word. -/
def not32 (n : Nat) : Nat := 4294967295 - n

/-- The SHA-1 round function for round `t`. -/
def sha1F (t b c d : Nat) : Nat :=
  if t < 20 then Nat.lor (Nat.land b c) (Nat.land (not32 b) d)
  else if t < 40 then Nat.xor b (Nat.xor c d)
  else if t < 60 then Nat.lor (Nat.lor (Nat.land b c) (Nat.land b d)) (Nat.land c d)
  else Nat.xor b (Nat.xor c d)

/-- The SHA-1 round constant for round `t`. -/
def sha1K (t : Nat) : Nat :=
  if t < 20 then 1518500249 else if t < 40 then 1859775393
  else if t < 60 then 2400959708 else 3395469782

/-- Group bytes into big-endian 32-bit words. -/
def bytesToWords : List Nat → List Nat
  | b0 :: b1 :: b2 :: b3 :: r => (b0 * 16777216 + b1 * 65536 + b2 * 256 + b3) :: bytesToWords r
  | _ => []

/-- Append the next word of the SHA-1 message schedule. -/
def sha1Step (prev : List Nat) : List Nat :=
  let i := prev.length
  prev ++ [rotl 1 (Nat.xor (prev.getD (i - 3) 0)
            (Nat.xor (prev.getD (i - 8) 0)
              (Nat.xor (prev.getD (i - 14) 0) (prev.getD (i - 16) 0))))]

/-- Extend 16 message words to the 80-word schedule. -/
def sha1Schedule (ws : List Nat) : List Nat :=
  sha1Step^[64] ws

/-- One SHA-1 round on the five-word state. -/
def sha1Round (t : Nat) (st : Nat × Nat × Nat × Nat × Nat) (wt : Nat) :
    Nat × Nat × Nat × Nat × Nat :=
  (w32 (rotl 5 st.1 + sha1F t st.2.1 st.2.2.1 st.2.2.2.1 + st.2.2.2.2 + sha1K t + wt),
   st.1, rotl 30 st.2.1, st.2.2.1, st.2.2.2.1)

/-- Run the 80 rounds over the schedule. -/
def sha1Rounds : List Nat → Nat → (Nat × Nat × Nat × Nat × Nat) → Nat × Nat × Nat × Nat × Nat
  | [], _, st => st
  | wt :: rest, t, st => sha1Rounds rest (t + 1) (sha1Round t st wt)

/-- Compress one 64-byte chunk into the running state. -/
def sha1Compress (h : Nat × Nat × Nat × Nat × Nat) (chunk : List Nat) :
    Nat × Nat × Nat × Nat × Nat :=
  let st := sha1Rounds (sha1Schedule (bytesToWords chunk)) 0 h
  (w32 (h.1 + st.1), w32 (h.2.1 + st.2.1), w32 (h.2.2.1 + st.2.2.1),
   w32 (h.2.2.2.1 + st.2.2.2.1), w32 (h.2.2.2.2 + st.2.2.2.2))

/-- Split a byte list into 64-byte chunks (`fuel ≥ length`). -/
def chunks64 : Nat → List Nat → List (List Nat)
  | 0, _ => []
  | _, [] => []
  | fuel + 1, a :: l => (a :: l).take 64 :: chunks64 fuel ((a :: l).drop 64)

/-- 64-bit big-endian encoding. -/
def be64 (n : Nat) : List Nat :=
  [n / 2 ^ 56 % 256, n / 2 ^ 48 % 256, n / 2 ^ 40 % 256, n / 2 ^ 32 % 256,
   n / 2 ^ 24 % 256, n / 2 ^ 16 % 256, n / 2 ^ 8 % 256, n % 256]

/-- 32-bit big-endian encoding. -/
def be32 (n : Nat) : List Nat :=
  [n / 2 ^ 24 % 256, n / 2 ^ 16 % 256, n / 2 ^ 8 % 256, n % 256]

/-- SHA-1 padding: `0x80`, zeros to 56 mod 64, 64-bit bit length. -/
def sha1Pad (msg : List Nat) : List Nat :=
  msg ++ 128 :: List.replicate ((119 - msg.length % 64) % 64) 0 ++ be64 (msg.length * 8)

/-- SHA-1 of a byte list, as the 20-byte digest. -/
def sha1Bytes (msg : List Nat) : List Nat :=
  let padded := sha1Pad msg
  let st := (chunks64 padded.length padded).foldl sha1Compress
      (1732584193, 4023233417, 2562383102, 271733878, 3285377520)
  be32 st.1 ++ be32 st.2.1 ++ be32 st.2.2.1 ++ be32 st.2.2.2.1 ++ be32 st.2.2.2.2

/-- One lowercase hex digit. -/
def hexDigit (n : Nat) : Char :=
  if n < 10 then Char.ofNat (48 + n) else Char.ofNat (87 + n)

/-- `.hexdigest()`: the digest bytes in lowercase hex. -/
def hexDigest (bytes : List Nat) : String :=
  String.mk ((bytes.map (fun b => [hexDigit (b / 16), hexDigit (b % 16)])).flatten)

/-- `sha1(msg).hexdigest()`. -/
def sha1Hex (msg : List Nat) : String :=
  hexDigest (sha1Bytes msg)

/-- Lexicographic (code-point) comparison of strings, as used by Python
`sorted` on `str`. -/
def charListLe : List Char → List Char → Bool
  | [], _ => true
  | _ :: _, [] => false
  | a :: as, b :: bs =>
      if a.toNat < b.toNat then true
      else if b.toNat < a.toNat then false
      else charListLe as bs

/-- The sorting relation of Python `sorted` on strings. -/
def strLe (a b : String) : Prop :=
  charListLe a.data b.data = true

instance : DecidableRel strLe :=
  fun a b => decidable_of_iff (charListLe a.data b.data = true) Iff.rfl

/-- Python `sorted(keys)` (stable ascending sort). -/
def pySorted (l : List String) : List String :=
  List.insertionSort strLe l

/-- `','.join(keys)`. -/
def joinComma : List String → String
  | [] => ""
  | [a] => a
  | a :: b :: r => a ++ "," ++ joinComma (b :: r)

/-- `f"{metric_name}|{tag_keys}"` with
`tag_keys = "" if not tags else ",".join(sorted(tags.keys()))`. -/
def familyString (metricName : String) (tags : List (String × String)) : String :=
  metricName ++ "|" ++
    (if tags.length = 0 then "" else joinComma (pySorted (tags.map (fun kv => kv.1))))

/-- `compute_family_id`: `sha1(family_string.encode('utf-8')).hexdigest()`. -/
def computeFamilyId (metricName : String) (tags : List (String × String)) : String :=
  sha1Hex (utf8Bytes (familyString metricName tags))

/-! ## `WavefrontProfiler._infer_tag_type` -/

/-- The inferred type of a tag's values. -/
inductive TagType where
  | numeric
  | identifier
  | text
  | categorical
deriving DecidableEq, Repr

/-- `re` lets `$` also match just before one trailing newline; all identifier
shape classes exclude `'\n'`, so `^...$` matching is full matching after
dropping one trailing newline. -/
def stripDollarNl (l : List Char) : List Char :=
  match l.getLast? with
  | some c => if c = '\n' then l.dropLast else l
  | none => l

/-- `^[a-f0-9]{8}-[a-f0-9]{4}-[a-f0-9]{4}-[a-f0-9]{4}-[a-f0-9]{12}$`. -/
def uuidCore (l : List Char) : Bool :=
  match l.splitOn '-' with
  | [a, b, c, d, e] =>
      a.length = 8 && b.length = 4 && c.length = 4 && d.length = 4 && e.length = 12 &&
        (a ++ b ++ c ++ d ++ e).all isLowerHexC
  | _ => false

/-- `^[a-zA-Z0-9]{20,}$`. -/
def longAlnumCore (l : List Char) : Bool :=
  20 ≤ l.length && l.all isAlnumC

/-- `^[a-zA-Z]+-[a-zA-Z0-9-]+$`: a maximal letter run, a dash, a non-empty
alphanumeric-or-dash remainder. -/
def kebabCore (l : List Char) : Bool :=
  let L := l.takeWhile isAlphaC
  if L.length = 0 then false
  else
    match l.drop L.length with
    | '-' :: r => r.length ≠ 0 && r.all (fun c => isAlnumC c || c = '-')
    | _ => false

/-- `any(re.match(p, value) for p in identifier_patterns)` with the loop's
`break`: a value counts once if it matches at least one shape. -/
def isIdentifierShape (s : String) : Bool :=
  let l := stripDollarNl s.data
  uuidCore l || longAlnumCore l || kebabCore l

/-- The distinct values of a list in first-occurrence order (`fuel ≥ length`);
its length is `len(set(values))`. -/
def firstSeenAux : Nat → List String → List String
  | 0, _ => []
  | _, [] => []
  | fuel + 1, a :: l => a :: firstSeenAux fuel (l.filter (fun x => decide (x ≠ a)))

/-- First-occurrence deduplication. -/
def firstSeen (l : List String) : List String :=
  firstSeenAux l.length l

/-- `_infer_tag_type` applied to the sampled values (the caller samples at most
1000 values; the division comparisons are exact over `ℚ`, which coincides with
the code's float comparisons at these sample sizes). -/
def inferTagType (values : List String) : TagType :=
  if values.length = 0 then .categorical
  else if ((values.filter (fun v => (pyFloat? v).isSome)).length : ℚ) / (values.length : ℚ)
      > 4 / 5 then .numeric
  else if ((values.filter isIdentifierShape).length : ℚ) / (values.length : ℚ)
      > 1 / 2 then .identifier
  else if (((firstSeen values).length : ℚ) / (values.length : ℚ)) > 4 / 5 then .text
  else .categorical

/-! ## `WavefrontProfiler._compute_categorical_distribution`

The Spark grouping / counting / ordering substrate is modelled over the column
as a list of optional strings (`null`s included): `df.count()` is the list
length, the `groupBy(column).count()` of non-null values is multiset counting,
`orderBy(count desc).limit(100)` is a stable sort by descending count cut at
100.  The entropy `-Σ p·log2(p)` is real-valued and appears directly in the
theorem statements over `catFreqs`. -/

/-- `value_counts`, limited to the top 100: pairs `(value, count)` of the
distinct non-null values, sorted by descending count. -/
def catTopValues (values : List (Option String)) : List (String × Nat) :=
  if values.length = 0 then []
  else
    let nonnull := values.filterMap id
    ((List.insertionSort (fun a b : String × Nat => b.2 ≤ a.2)
        ((firstSeen nonnull).map (fun v => (v, nonnull.count v)))).take 100)

/-- The frequencies `row.count / total_count` of the returned top values
(the denominator counts null rows too, as `df.count()` does). -/
def catFreqs (values : List (Option String)) : List ℚ :=
  (catTopValues values).map (fun p => (p.2 : ℚ) / (values.length : ℚ))

/-! ## `WavefrontProfiler._compute_numeric_distribution`

The quantiles (`percentile_approx`), `mean`, `stddev`, `min` and `max` are
opaque Spark aggregates, passed in as parameters; the function's own logic —
the `np.linspace` bin edges over `[p01, p99]` and the placeholder bin counts —
is embedded. -/

/-- Result of `_compute_numeric_distribution`. -/
structure NumDist where
  p01 : ℚ
  p05 : ℚ
  p50 : ℚ
  p95 : ℚ
  p99 : ℚ
  bins : List ℚ
  counts : List Nat
  mean : ℚ
  stddev : ℚ
  vmin : ℚ
  vmax : ℚ
deriving DecidableEq, Repr

/-- `np.linspace(a, b, n)` over exact rationals. -/
def linspace (a b : ℚ) (n : Nat) : List ℚ :=
  (List.range n).map (fun i : ℕ => a + (i : ℚ) * ((b - a) / ((n : ℚ) - 1)))

/-- `_compute_numeric_distribution`: `bins = np.linspace(q[0], q[-1], 33)` and
`counts = [0] * 32` (the source's placeholder). -/
def computeNumericDistribution (q01 q05 q50 q95 q99 mean stddev vmin vmax : ℚ) : NumDist :=
  { p01 := q01, p05 := q05, p50 := q50, p95 := q95, p99 := q99
    bins := linspace q01 q99 33
    counts := List.replicate 32 0
    mean := mean, stddev := stddev, vmin := vmin, vmax := vmax }

/-! ## `WavefrontProfiler._analyze_temporal_patterns`

The per-minute bucketing (`groupBy(window(...))`) is the external substrate;
the embedded part maps the collected ascending list of per-minute counts to
the intensity curve. -/

/-- Pad with trailing `1.0` to 1440 entries, or truncate past 1440. -/
def padTruncate (c : List ℚ) : List ℚ :=
  if c.length < 1440 then c ++ List.replicate (1440 - c.length) 1
  else if 1440 < c.length then c.take 1440
  else c

/-- The normalization step: divide by the mean bucket count
(`np.mean(minute_counts)`) when it is positive, else emit all ones. -/
def normalizeCurve (counts : List ℚ) : List ℚ :=
  if 0 < counts.sum / (counts.length : ℚ) then
    counts.map (fun c => c / (counts.sum / (counts.length : ℚ)))
  else List.replicate counts.length 1

/-- The intensity-curve computation of `_analyze_temporal_patterns`: default an
empty bucket list to 1440 ones, normalize, then pad / truncate to exactly 1440
entries. -/
def intensityCurve (counts0 : List ℚ) : List ℚ :=
  padTruncate (normalizeCurve (if counts0.length = 0 then List.replicate 1440 1 else counts0))

/-! ## Helper lemmas -/

theorem padTruncate_length (c : List ℚ) : (padTruncate c).length = 1440 := by
  unfold padTruncate
  split_ifs with h1 h2
  · simp only [List.length_append, List.length_replicate]
    omega
  · simp only [List.length_take]
    omega
  · omega

theorem padTruncate_replicate_one (n : Nat) :
    padTruncate (List.replicate n 1) = List.replicate 1440 1 := by
  unfold padTruncate
  split_ifs with h1 h2
  · rw [List.length_replicate] at h1
    rw [List.length_replicate, ← List.replicate_add]
    congr 1
    omega
  · rw [List.length_replicate] at h2
    rw [List.take_replicate]
    congr 1
    omega
  · rw [List.length_replicate] at h1 h2
    congr 1
    omega

/-! ## C6 -/

/-- C6: the intensity curve always has exactly 1440 entries; a zero mean of the
per-minute bucket counts yields the all-ones curve; a positive mean divides
each bucket count by the mean and then pads with trailing `1.0` / truncates to
1440 entries. -/
theorem intensityCurve_length_and_zero_mean (counts : List ℚ) :
    (intensityCurve counts).length = 1440 ∧
    (counts.sum = 0 → intensityCurve counts = List.replicate 1440 1) ∧
    (counts.length ≠ 0 → 0 < counts.sum / (counts.length : ℚ) →
      intensityCurve counts
        = padTruncate (counts.map (fun c => c / (counts.sum / (counts.length : ℚ))))) := by
  have hsum1440 : (List.replicate 1440 (1 : ℚ)).sum = 1440 := by
    rw [List.sum_replicate, nsmul_eq_mul, mul_one]
    norm_num
  have hones : normalizeCurve (List.replicate 1440 (1 : ℚ)) = List.replicate 1440 1 := by
    unfold normalizeCurve
    rw [hsum1440, List.length_replicate, List.map_replicate]
    norm_num
  refine ⟨padTruncate_length _, ?_, ?_⟩
  · intro hsum
    unfold intensityCurve
    by_cases hlen : counts.length = 0
    · rw [if_pos hlen, hones, padTruncate_replicate_one]
    · rw [if_neg hlen]
      unfold normalizeCurve
      rw [hsum, if_neg (by simp), padTruncate_replicate_one]
  · intro hlen hpos
    unfold intensityCurve normalizeCurve
    rw [if_neg hlen, if_pos hpos]

/-- C6 witness: the length invariant and the zero-mean case at a concrete
bucket list. -/
theorem intensityCurve_length_and_zero_mean_witness :
    (intensityCurve [0, 0]).length = 1440 ∧ intensityCurve [0, 0] = List.replicate 1440 1 :=
  ⟨(intensityCurve_length_and_zero_mean [0, 0]).1,
   (intensityCurve_length_and_zero_mean [0, 0]).2.1 (by simp)⟩

/-! ## C9 -/

/-- C9 (code bug): `_compute_numeric_distribution` does report the approximate
quantiles, mean, stddev, min, max and 32 equal-width bin edges spanning
`[p01, p99]`, but its per-bin `counts` are the placeholder `[0] * 32`: no input
value is ever counted into any bin, for every possible input. -/
theorem numericDistribution_counts_placeholder
    (q01 q05 q50 q95 q99 mean stddev vmin vmax : ℚ) :
    (computeNumericDistribution q01 q05 q50 q95 q99 mean stddev vmin vmax).counts
        = List.replicate 32 0 ∧
    (computeNumericDistribution q01 q05 q50 q95 q99 mean stddev vmin vmax).counts.sum = 0 ∧
    (computeNumericDistribution q01 q05 q50 q95 q99 mean stddev vmin vmax).bins
        = (List.range 33).map (fun i : ℕ => q01 + (i : ℚ) * ((q99 - q01) / 32)) ∧
    (computeNumericDistribution q01 q05 q50 q95 q99 mean stddev vmin vmax).bins.length = 33 ∧
    (computeNumericDistribution q01 q05 q50 q95 q99 mean stddev vmin vmax).p01 = q01 ∧
    (computeNumericDistribution q01 q05 q50 q95 q99 mean stddev vmin vmax).p99 = q99 := by
  refine ⟨rfl, ?_, ?_, ?_, rfl, rfl⟩
  · show (List.replicate 32 0).sum = 0
    rw [List.sum_replicate, smul_zero]
  · show linspace q01 q99 33 = _
    unfold linspace
    norm_num
  · show (linspace q01 q99 33).length = 33
    unfold linspace
    rw [List.length_map, List.length_range]

/-! ## C4 -/

/-- C4 (code bug): on the spec's own delta example line, `parse_line` returns
no record at all, because `METRIC_NAME_PATTERN` only admits `[a-zA-Z0-9]` as
the first character of a bare metric name, so a bare name starting with the
delta symbol never matches and `_parse_metric` returns `None` before the
`DELTA_PATTERN` logic can run.  The delta logic is reachable only for quoted
names, as the second conjunct shows on the same line with the name quoted. -/
theorem parseLine_delta_line_no_record :
    parseLine "∆request.count 5 source=api-2 endpoint=\"/v1/users\"" = none ∧
    metricNameRes "∆request.count" = NameRes.noMatch ∧
    parseLine "\"∆request.count\" 5 source=api-2 endpoint=\"/v1/users\""
      = some (Record.metric
          { metric := "request.count"
            value := PyVal.str "/v1/users"
            timestamp := none
            source := some "api-2"
            tags := [("endpoint", "/v1/users")]
            is_delta := true
            line_length := 52 }) := by
  refine ⟨rfl, rfl, rfl⟩

/-! ## C1 counterexample -/

/-- C1 (counterexample): a non-blank, non-comment metric-shaped line with no
`source=` tag produces no record at all, so `none` is not restricted to blank
and comment lines. -/
theorem parseLine_silent_drop_example :
    parseLine "x 1 host=a" = none ∧
    pyStrip "x 1 host=a" = "x 1 host=a" ∧
    startsWithHash "x 1 host=a" = false :=
  ⟨rfl, by decide, rfl⟩

/-! ## C2 -/

/-- C2 (counterexample): on the spec's own example `"gauge abc source=s"`, the
second token does fail to parse as a float, but `parse_line` silently drops the
line (returns no record) instead of producing a `ParseError` record. -/
theorem parseLine_nonnumeric_value_example :
    pyFloat? "abc" = none ∧
    parseLine "gauge abc source=s" = none :=
  ⟨rfl, rfl⟩

/-- The metric branch of `parse_line`: once the histogram and span patterns
fail on a non-blank, non-comment line, the result is `_parse_metric`'s, with an
exception converted to an error record. -/
theorem parseLine_metric_branch (s : String)
    (hne : (pyStrip s).data.length ≠ 0)
    (hhash : startsWithHash (pyStrip s) = false)
    (hhisto : histoMatch (pyStrip s) = none)
    (hspan : spanMatch (pyStrip s) = none) :
    parseLine s =
      match parseMetric (pyStrip s) with
      | .ok o => o.map Record.metric
      | .error e => some (.error ⟨String.mk ((pyStrip s).data.take 100), e⟩) := by
  unfold parseLine parseLineStripped
  rw [if_neg hne, if_neg (by simp [hhash]), hhisto, hspan]

/-- `_parse_metric` returns `None` when the value token fails to parse as a
float (the `except ValueError: return None` path). -/
theorem parseMetric_float_none (t p0 p1 : String) (rest : List String) (n : String)
    (hsplit : pySplit t = p0 :: p1 :: rest)
    (hname : metricNameRes p0 = NameRes.name n)
    (hfloat : pyFloat? p1 = none) :
    parseMetric t = .ok none := by
  cases rest with
  | nil => simp only [parseMetric, hsplit]
  | cons p2 r => simp only [parseMetric, hsplit, hname, hfloat]

/-- C2 (amended): for every metric-shaped line (histogram and span patterns do
not match, at least two whitespace-separated tokens, first token yields a
metric name) whose second token fails to parse as a floating-point value,
`parse_line` returns no record at all — the line is silently dropped, not
turned into a `ParseError`. -/
theorem parseMetric_float_failure_drops (s p0 p1 : String) (rest : List String) (n : String)
    (hne : (pyStrip s).data.length ≠ 0)
    (hhash : startsWithHash (pyStrip s) = false)
    (hhisto : histoMatch (pyStrip s) = none)
    (hspan : spanMatch (pyStrip s) = none)
    (hsplit : pySplit (pyStrip s) = p0 :: p1 :: rest)
    (hname : metricNameRes p0 = NameRes.name n)
    (hfloat : pyFloat? p1 = none) :
    parseLine s = none := by
  rw [parseLine_metric_branch s hne hhash hhisto hspan,
    parseMetric_float_none (pyStrip s) p0 p1 rest n hsplit hname hfloat]
  rfl

/-- C2 witness: the amended statement applied to a concrete dropped line. -/
theorem parseMetric_float_failure_drops_witness :
    parseLine "m xyz source=q" = none :=
  parseMetric_float_failure_drops "m xyz source=q" "m" "xyz" ["source=q"] "m"
    (by decide) (by decide) (by decide) (by decide) (by decide) (by decide) (by decide)

/-! ## C5 counterexample -/

/-- C5 (counterexample): a histogram line of the claimed form with the optional
timestamp absent and single spaces (`"!M #1 1 2.5"`) does not parse as a
histogram — `\s+(\d+)?\s+` needs two whitespace characters when the timestamp
is missing — and in fact yields no record at all; with the double space the
same line parses. -/
theorem histogram_single_space_no_timestamp_drop :
    parseLine "!M #1 1 2.5" = none ∧
    histoMatch "!M #1 1 2.5" = none ∧
    (parseLine "!M  #1 1 2.5").isSome = true :=
  ⟨rfl, rfl, rfl⟩

/-! ## C3 counterexample -/

/-- C3 (counterexample): the joined key string does not separate keys
containing commas, so two different tag-key sets can receive the same family
id: `{a, b}` and `{"a,b"}` under metric name `m` both hash `"m|a,b"`. -/
theorem familyId_comma_key_collision :
    computeFamilyId "m" [("a", "1"), ("b", "2")] = computeFamilyId "m" [("a,b", "x")] ∧
    (([("a", "1"), ("b", "2")] : List (String × String)).map Prod.fst).toFinset
      ≠ (([("a,b", "x")] : List (String × String)).map Prod.fst).toFinset := by
  constructor
  · have h : familyString "m" [("a", "1"), ("b", "2")] = familyString "m" [("a,b", "x")] := by
      decide
    unfold computeFamilyId
    rw [h]
  · decide

/-! ## C10 -/

theorem replaceAll_ne_nil (pat rep : List Char) (hrep : rep ≠ []) :
    ∀ (fuel : Nat) (l : List Char), l ≠ [] → replaceAll pat rep fuel l ≠ [] := by
  intro fuel
  induction fuel with
  | zero => intro l hl; simpa [replaceAll] using hl
  | succ f ih =>
      intro l hl
      cases l with
      | nil => exact absurd rfl hl
      | cons c r =>
          unfold replaceAll
          split
          · simp [hrep]
          · simp

theorem unescapeQuoted_ne_empty (s : String) (hs : s.data ≠ []) :
    (unescapeQuoted s).data ≠ [] := by
  unfold unescapeQuoted
  apply replaceAll_ne_nil _ _ (by simp)
  exact replaceAll_ne_nil _ _ (by simp) _ _ hs

theorem tryTagRun_unquoted_ne (l r2 : List Char) (t : TagMatch) (len : Nat)
    (h : tryTagRun l r2 = some (t, len)) : t.raw.data ≠ [] := by
  unfold tryTagRun at h
  split at h
  · exact absurd h (by simp)
  · next hlen =>
      injection h with h'
      obtain ⟨h1, _⟩ := Prod.mk.inj h'
      rw [← h1]
      simpa [List.length_eq_zero] using hlen

theorem tryTag_unquoted_ne (l : List Char) (t : TagMatch) (len : Nat)
    (h : tryTag l = some (t, len)) (hq : t.quoted = false) : t.raw.data ≠ [] := by
  unfold tryTag at h
  repeat' split at h
  all_goals try simp only [Option.some.injEq, Prod.mk.injEq, reduceCtorEq] at h
  all_goals first
    | exact tryTagRun_unquoted_ne _ _ _ _ h
    | (rw [← h.1] at hq
       simp at hq)

theorem tagScanAux_unquoted_ne (fuel : Nat) :
    ∀ (l : List Char) (t : TagMatch), t ∈ tagScanAux fuel l → t.quoted = false →
      t.raw.data ≠ [] := by
  induction fuel with
  | zero => intro l t ht; simp [tagScanAux] at ht
  | succ f ih =>
      intro l t ht hq
      cases l with
      | nil => simp [tagScanAux] at ht
      | cons c r =>
          unfold tagScanAux at ht
          split at ht
          · next tm len heq =>
              rcases List.mem_cons.mp ht with rfl | hmem
              · exact tryTag_unquoted_ne (c :: r) t len heq hq
              · exact ih _ t hmem hq
          · exact ih r t ht hq

theorem tagsInsert_forall (P : String → Prop) (l : List (String × String)) (k v : String)
    (hl : ∀ kv ∈ l, P kv.2) (hv : P v) :
    ∀ kv ∈ tagsInsert l k v, P kv.2 := by
  intro kv hkv
  unfold tagsInsert at hkv
  split at hkv
  · obtain ⟨x, hx, hxe⟩ := List.mem_map.mp hkv
    by_cases hxk : x.1 = k
    · rw [if_pos hxk] at hxe
      rw [← hxe]
      exact hv
    · rw [if_neg hxk] at hxe
      rw [← hxe]
      exact hl x hx
  · rcases List.mem_append.mp hkv with hmem | hmem
    · exact hl kv hmem
    · rw [List.mem_singleton.mp hmem]
      exact hv

theorem tagFold_values_ne (ms : List TagMatch) :
    ∀ (acc : List (String × String) × PyVal),
      (∀ t ∈ ms, t.quoted = false → t.raw.data ≠ []) →
      (∀ kv ∈ acc.1, kv.2.data ≠ []) →
      ∀ kv ∈ (ms.foldl tagStep acc).1, kv.2.data ≠ [] := by
  induction ms with
  | nil => intro acc _ hacc; exact hacc
  | cons t ms ih =>
      intro acc hms hacc
      refine ih _ (fun t' ht' => hms t' (List.mem_cons_of_mem _ ht')) ?_
      unfold tagStep
      split
      · exact hacc
      · next hguard =>
          split
          · next hq =>
              refine tagsInsert_forall (fun v => v.data ≠ []) acc.1 t.key _ hacc ?_
              apply unescapeQuoted_ne_empty
              intro hraw
              apply hguard
              simp [hq, hraw]
          · next hq =>
              refine tagsInsert_forall (fun v => v.data ≠ []) acc.1 t.key _ hacc ?_
              exact hms t (List.mem_cons_self _ _) (by simpa using hq)

/-- The tag dictionary produced by the tag loop over `TAG_PATTERN` matches
holds only non-empty values. -/
theorem tagLoop_values_ne (str : String) (init : PyVal) :
    ∀ kv ∈ (tagLoop (tagFinditer str) init).1, kv.2.data ≠ [] := by
  apply tagFold_values_ne
  · exact fun t ht => tagScanAux_unquoted_ne _ _ t ht
  · simp

theorem metricWithSource_tags_ne (t n0 : String) (v : PyFloat) (remaining : String)
    (m : MetricRec) (h : metricWithSource t n0 v remaining = some m) :
    ∀ kv ∈ m.tags, kv.2.data ≠ [] := by
  unfold metricWithSource at h
  split at h
  · exact absurd h (by simp)
  · injection h with h'
    rw [← h']
    unfold metricWithTimestamp
    split
    · exact tagLoop_values_ne _ _
    · exact tagLoop_values_ne _ _

theorem parseMetric_tags_ne (t : String) (m : MetricRec) (h : parseMetric t = .ok (some m)) :
    ∀ kv ∈ m.tags, kv.2.data ≠ [] := by
  unfold parseMetric at h
  repeat' split at h
  all_goals simp only [Except.ok.injEq, reduceCtorEq] at h
  all_goals first
    | exact absurd h (Option.noConfusion ·)
    | exact metricWithSource_tags_ne _ _ _ _ m h

theorem string_ne_empty_of_data (s : String) (h : s.data ≠ []) : s ≠ "" := by
  intro he
  rw [he] at h
  exact h rfl

/-- C10: every tag value stored in a parsed metric or span record is a
non-empty string (empty `key=` / `key=""` pairs are omitted by the
`if value:` filter of the tag loops). -/
theorem parsed_tag_values_nonempty (s : String) (r : Record) (h : parseLine s = some r) :
    (∀ m, r = Record.metric m → ∀ kv ∈ m.tags, kv.2 ≠ "") ∧
    (∀ sp, r = Record.span sp → ∀ kv ∈ sp.span_tags, kv.2 ≠ "") := by
  unfold parseLine parseLineStripped at h
  split at h
  · exact absurd h (by simp)
  · split at h
    · exact absurd h (by simp)
    · split at h
      · next g _ =>
          injection h with h'
          constructor
          · intro m hm; rw [← h'] at hm; exact absurd hm (by simp)
          · intro sp hsp; rw [← h'] at hsp; exact absurd hsp (by simp)
      · split at h
        · next g _ =>
            injection h with h'
            constructor
            · intro m hm; rw [← h'] at hm; exact absurd hm (by simp)
            · intro sp hsp
              rw [← h'] at hsp
              injection hsp with h''
              rw [← h'']
              intro kv hkv
              exact string_ne_empty_of_data _ (tagLoop_values_ne g.middle .null kv hkv)
        · split at h
          · next o ho =>
              cases o with
              | none => exact absurd h (by simp)
              | some m0 =>
                  simp only [Option.map_some'] at h
                  injection h with h'
                  constructor
                  · intro m hm
                    rw [← h'] at hm
                    injection hm with h''
                    rw [← h'']
                    intro kv hkv
                    exact string_ne_empty_of_data _ (parseMetric_tags_ne _ m0 ho kv hkv)
                  · intro sp hsp; rw [← h'] at hsp; exact absurd hsp (by simp)
          · next e he =>
              injection h with h'
              constructor
              · intro m hm; rw [← h'] at hm; exact absurd hm (by simp)
              · intro sp hsp; rw [← h'] at hsp; exact absurd hsp (by simp)

/-- C10 witness: the non-emptiness statement applied to a concrete line whose
`a=` and `b=""` pairs are dropped. -/
theorem parsed_tag_values_nonempty_witness :
    parseLine "m 1 source=s a= b=\"\" c=x" = some (Record.metric
      { metric := "m", value := PyVal.str "x", timestamp := none,
        source := some "s", tags := [("c", "x")], is_delta := false,
        line_length := 24 }) ∧
    (("c", "x") : String × String).2 ≠ "" :=
  ⟨rfl,
   (parsed_tag_values_nonempty "m 1 source=s a= b=\"\" c=x"
    (Record.metric
      { metric := "m", value := PyVal.str "x", timestamp := none,
        source := some "s", tags := [("c", "x")], is_delta := false,
        line_length := 24 }) rfl).1
    { metric := "m", value := PyVal.str "x", timestamp := none,
      source := some "s", tags := [("c", "x")], is_delta := false,
      line_length := 24 } rfl ("c", "x") (List.mem_cons_self _ _)⟩

/-! ## C7 -/

theorem firstSeenAux_mem (fuel : Nat) :
    ∀ (l : List String), l.length ≤ fuel → ∀ x, x ∈ firstSeenAux fuel l ↔ x ∈ l := by
  induction fuel with
  | zero =>
      intro l hl x
      rw [Nat.le_zero, List.length_eq_zero] at hl
      subst hl
      simp [firstSeenAux]
  | succ f ih =>
      intro l hl x
      cases l with
      | nil => simp [firstSeenAux]
      | cons a r =>
          unfold firstSeenAux
          have hr : (r.filter (fun x => decide (x ≠ a))).length ≤ f :=
            le_trans (List.length_filter_le _ _) (Nat.succ_le_succ_iff.mp hl)
          rw [List.mem_cons, ih _ hr x, List.mem_filter, List.mem_cons]
          by_cases hx : x = a
          · simp [hx]
          · simp [hx]

theorem firstSeenAux_nodup (fuel : Nat) :
    ∀ (l : List String), l.length ≤ fuel → (firstSeenAux fuel l).Nodup := by
  induction fuel with
  | zero => intro l _; simp [firstSeenAux]
  | succ f ih =>
      intro l hl
      cases l with
      | nil => simp [firstSeenAux]
      | cons a r =>
          unfold firstSeenAux
          have hr : (r.filter (fun x => decide (x ≠ a))).length ≤ f :=
            le_trans (List.length_filter_le _ _) (Nat.succ_le_succ_iff.mp hl)
          refine List.Nodup.cons ?_ (ih _ hr)
          intro hmem
          rw [firstSeenAux_mem f _ hr a, List.mem_filter] at hmem
          simp at hmem

theorem firstSeen_mem (l : List String) (x : String) : x ∈ firstSeen l ↔ x ∈ l :=
  firstSeenAux_mem l.length l le_rfl x

theorem firstSeen_nodup (l : List String) : (firstSeen l).Nodup :=
  firstSeenAux_nodup l.length l le_rfl

theorem firstSeen_toFinset (l : List String) : (firstSeen l).toFinset = l.toFinset := by
  ext x
  simp [List.mem_toFinset, firstSeen_mem]

theorem firstSeen_length (l : List String) : (firstSeen l).length = l.toFinset.card := by
  rw [← firstSeen_toFinset, List.toFinset_card_of_nodup (firstSeen_nodup l)]

theorem ratio_gt_four_fifths (a n : Nat) (hn : n ≠ 0) :
    ((a : ℚ) / (n : ℚ) > 4 / 5) ↔ 4 * n < 5 * a := by
  have hn' : (0 : ℚ) < (n : ℚ) := by
    exact_mod_cast Nat.pos_of_ne_zero hn
  rw [gt_iff_lt, div_lt_div_iff₀ (by norm_num) hn']
  rw [show (4 : ℚ) * (n : ℚ) = ((4 * n : ℕ) : ℚ) by push_cast; ring,
      show (a : ℚ) * 5 = ((5 * a : ℕ) : ℚ) by push_cast; ring,
      Nat.cast_lt]

theorem ratio_gt_half (a n : Nat) (hn : n ≠ 0) :
    ((a : ℚ) / (n : ℚ) > 1 / 2) ↔ n < 2 * a := by
  have hn' : (0 : ℚ) < (n : ℚ) := by
    exact_mod_cast Nat.pos_of_ne_zero hn
  rw [gt_iff_lt, div_lt_div_iff₀ (by norm_num) hn']
  rw [show (1 : ℚ) * (n : ℚ) = ((n : ℕ) : ℚ) by ring,
      show (a : ℚ) * 2 = ((2 * a : ℕ) : ℚ) by push_cast; ring,
      Nat.cast_lt]

/-- C7 (counterexample): at exactly 80% numeric samples (`4` of `5`) the code
does not classify `numeric` (the comparison is strict `>`), and at exactly 50%
identifier-shaped samples (`2` of `4`) it does not classify `identifier`. -/
theorem inferTagType_threshold_boundaries :
    inferTagType ["1", "2", "3", "4", "x"] = TagType.text ∧
    inferTagType ["aaaaaaaaaaaaaaaaaaaa1", "aaaaaaaaaaaaaaaaaaaa2", "x", "x"]
      = TagType.categorical := by
  constructor
  · have hlen : (["1", "2", "3", "4", "x"] : List String).length = 5 := rfl
    have hnum : ((["1", "2", "3", "4", "x"] : List String).filter
        (fun v => (pyFloat? v).isSome)).length = 4 := rfl
    have hid : ((["1", "2", "3", "4", "x"] : List String).filter isIdentifierShape).length = 0 :=
      rfl
    have hfs : (firstSeen ["1", "2", "3", "4", "x"]).length = 5 := rfl
    unfold inferTagType
    rw [hlen, hnum, hid, hfs]
    norm_num
  · have hlen : (["aaaaaaaaaaaaaaaaaaaa1", "aaaaaaaaaaaaaaaaaaaa2", "x", "x"] :
        List String).length = 4 := rfl
    have hnum : ((["aaaaaaaaaaaaaaaaaaaa1", "aaaaaaaaaaaaaaaaaaaa2", "x", "x"] :
        List String).filter (fun v => (pyFloat? v).isSome)).length = 0 := rfl
    have hid : ((["aaaaaaaaaaaaaaaaaaaa1", "aaaaaaaaaaaaaaaaaaaa2", "x", "x"] :
        List String).filter isIdentifierShape).length = 2 := rfl
    have hfs : (firstSeen ["aaaaaaaaaaaaaaaaaaaa1", "aaaaaaaaaaaaaaaaaaaa2", "x", "x"]).length
        = 3 := rfl
    unfold inferTagType
    rw [hlen, hnum, hid, hfs]
    norm_num

/-- C7 (amended): on a non-empty sample, tag-type inference returns `numeric`
when strictly more than 80% of the samples parse as floats, else `identifier`
when strictly more than 50% match an identifier shape, else `text` when the
distinct-value ratio exceeds 0.8, else `categorical`; the empty sample returns
`categorical`. -/
theorem inferTagType_spec (values : List String) (hne : values ≠ []) :
    inferTagType values =
      (if 4 * values.length < 5 * values.countP (fun v => (pyFloat? v).isSome) then
        TagType.numeric
       else if values.length < 2 * values.countP isIdentifierShape then TagType.identifier
       else if 4 * values.length < 5 * values.toFinset.card then TagType.text
       else TagType.categorical) ∧
    inferTagType [] = TagType.categorical := by
  have hlen : values.length ≠ 0 := by
    simpa [List.length_eq_zero] using hne
  have h1 : (((values.filter (fun v => (pyFloat? v).isSome)).length : ℚ) / (values.length : ℚ)
        > 4 / 5)
      ↔ 4 * values.length < 5 * values.countP (fun v => (pyFloat? v).isSome) := by
    rw [List.countP_eq_length_filter]
    exact ratio_gt_four_fifths _ _ hlen
  have h2 : (((values.filter isIdentifierShape).length : ℚ) / (values.length : ℚ) > 1 / 2)
      ↔ values.length < 2 * values.countP isIdentifierShape := by
    rw [List.countP_eq_length_filter]
    exact ratio_gt_half _ _ hlen
  have h3 : (((firstSeen values).length : ℚ) / (values.length : ℚ) > 4 / 5)
      ↔ 4 * values.length < 5 * values.toFinset.card := by
    rw [firstSeen_length]
    exact ratio_gt_four_fifths _ _ hlen
  constructor
  · unfold inferTagType
    rw [if_neg hlen, if_congr h1 rfl rfl, if_congr h2 rfl rfl, if_congr h3 rfl rfl]
  · rfl

/-- C7 witness: the amended statement applied to a concrete non-empty sample. -/
theorem inferTagType_spec_witness :
    inferTagType ["7", "8"] =
      (if 4 * (["7", "8"] : List String).length
          < 5 * (["7", "8"] : List String).countP (fun v => (pyFloat? v).isSome) then
        TagType.numeric
       else if (["7", "8"] : List String).length
          < 2 * (["7", "8"] : List String).countP isIdentifierShape then TagType.identifier
       else if 4 * (["7", "8"] : List String).length
          < 5 * (["7", "8"] : List String).toFinset.card then TagType.text
       else TagType.categorical) ∧
    inferTagType [] = TagType.categorical :=
  inferTagType_spec ["7", "8"] (by simp)

/-! ## C8 -/

theorem catTopValues_length_le (values : List (Option String)) :
    (catTopValues values).length ≤ 100 := by
  unfold catTopValues
  split
  · simp
  · exact List.length_take_le _ _

theorem catTopValues_mem (values : List (Option String)) (t : String × Nat)
    (ht : t ∈ catTopValues values) :
    values.length ≠ 0 ∧
    ∃ v, v ∈ values.filterMap id ∧ t = (v, (values.filterMap id).count v) := by
  unfold catTopValues at ht
  split at ht
  · simp at ht
  · next hlen =>
      refine ⟨hlen, ?_⟩
      have h1 := (List.take_sublist _ _).mem ht
      have h2 := (List.perm_insertionSort (fun a b : String × Nat => b.2 ≤ a.2) _).mem_iff.mp h1
      obtain ⟨v, hv, hveq⟩ := List.mem_map.mp h2
      exact ⟨v, (firstSeen_mem _ _).mp hv, hveq.symm⟩

theorem catFreqs_pos_le_one (values : List (Option String)) (p : ℚ) (hp : p ∈ catFreqs values) :
    0 < p ∧ p ≤ 1 := by
  unfold catFreqs at hp
  obtain ⟨t, ht, hteq⟩ := List.mem_map.mp hp
  obtain ⟨hlen, v, hv, hveq⟩ := catTopValues_mem values t ht
  have hn0 : (0 : ℚ) < (values.length : ℚ) := by
    exact_mod_cast Nat.pos_of_ne_zero hlen
  have hc1 : 1 ≤ t.2 := by
    rw [hveq]
    exact List.count_pos_iff.mpr hv
  have hc2 : t.2 ≤ values.length := by
    rw [hveq]
    exact le_trans (List.count_le_length _ _) (List.length_filterMap_le _ _)
  rw [← hteq]
  constructor
  · apply div_pos _ hn0
    exact_mod_cast hc1
  · rw [div_le_one hn0]
    exact_mod_cast hc2

theorem catTopValues_fst_nodup (values : List (Option String)) :
    ((catTopValues values).map Prod.fst).Nodup := by
  unfold catTopValues
  split
  · simp
  · refine List.Nodup.sublist (List.Sublist.map _ (List.take_sublist _ _)) ?_
    rw [List.Perm.nodup_iff ((List.perm_insertionSort _ _).map _)]
    rw [List.map_map]
    have hid : (Prod.fst ∘ fun v : String => (v, (values.filterMap id).count v)) = id := by
      funext v
      rfl
    rw [hid, List.map_id]
    exact firstSeen_nodup _

theorem list_sum_nonpos : ∀ (l : List ℝ), (∀ x ∈ l, x ≤ 0) → l.sum ≤ 0 := by
  intro l
  induction l with
  | nil => simp
  | cons a l ih =>
      intro h
      rw [List.sum_cons]
      have ha := h a (List.mem_cons_self _ _)
      have hl := ih (fun x hx => h x (List.mem_cons_of_mem _ hx))
      linarith

theorem list_sum_zero_nonpos : ∀ (l : List ℝ), (∀ x ∈ l, x ≤ 0) → l.sum = 0 →
    ∀ x ∈ l, x = 0 := by
  intro l
  induction l with
  | nil => simp
  | cons a l ih =>
      intro h hs x hx
      rw [List.sum_cons] at hs
      have ha := h a (List.mem_cons_self _ _)
      have hl := list_sum_nonpos l (fun y hy => h y (List.mem_cons_of_mem _ hy))
      have ha0 : a = 0 := by linarith
      have hs0 : l.sum = 0 := by linarith
      rcases List.mem_cons.mp hx with rfl | hx'
      · exact ha0
      · exact ih (fun y hy => h y (List.mem_cons_of_mem _ hy)) hs0 x hx'

theorem entropy_term_nonpos (p : ℚ) (hp0 : 0 < p) (hp1 : p ≤ 1) :
    (if 0 < p then (p : ℝ) * Real.logb 2 (p : ℝ) else 0) ≤ 0 := by
  rw [if_pos hp0]
  apply mul_nonpos_of_nonneg_of_nonpos
  · exact_mod_cast hp0.le
  · exact Real.logb_nonpos (by norm_num) (by exact_mod_cast hp0.le) (by exact_mod_cast hp1)

theorem entropy_nonneg (freqs : List ℚ) (hmem : ∀ p ∈ freqs, 0 < p ∧ p ≤ 1) :
    0 ≤ -((freqs.map (fun p : ℚ => if 0 < p then (p : ℝ) * Real.logb 2 (p : ℝ) else 0)).sum) := by
  rw [neg_nonneg]
  apply list_sum_nonpos
  intro x hx
  obtain ⟨p, hp, rfl⟩ := List.mem_map.mp hx
  exact entropy_term_nonpos p (hmem p hp).1 (hmem p hp).2

theorem entropy_zero_iff (freqs : List ℚ) (hmem : ∀ p ∈ freqs, 0 < p ∧ p ≤ 1) :
    (-((freqs.map (fun p : ℚ => if 0 < p then (p : ℝ) * Real.logb 2 (p : ℝ) else 0)).sum) = 0 ↔
      ∀ p ∈ freqs, p = 1) := by
  rw [neg_eq_zero]
  constructor
  · intro hz p hp
    have hall := list_sum_zero_nonpos _
      (fun x hx => by
        obtain ⟨q, hq, rfl⟩ := List.mem_map.mp hx
        exact entropy_term_nonpos q (hmem q hq).1 (hmem q hq).2) hz
    have hterm := hall _ (List.mem_map_of_mem _ hp)
    rw [if_pos (hmem p hp).1] at hterm
    rcases mul_eq_zero.mp hterm with h | h
    · exfalso
      have : (0 : ℝ) < (p : ℝ) := by exact_mod_cast (hmem p hp).1
      rw [h] at this
      exact lt_irrefl 0 this
    · rcases Real.logb_eq_zero.mp h with h2 | h2 | h2 | h2 | h2 | h2
      · norm_num at h2
      · norm_num at h2
      · norm_num at h2
      · exfalso
        have : (0 : ℝ) < (p : ℝ) := by exact_mod_cast (hmem p hp).1
        rw [h2] at this
        exact lt_irrefl 0 this
      · exact_mod_cast h2
      · exfalso
        have : (0 : ℝ) < (p : ℝ) := by exact_mod_cast (hmem p hp).1
        rw [h2] at this
        norm_num at this
  · intro hone
    have : freqs.map (fun p : ℚ => if 0 < p then (p : ℝ) * Real.logb 2 (p : ℝ) else 0)
        = freqs.map (fun _ => (0 : ℝ)) := by
      apply List.map_congr_left
      intro p hp
      rw [hone p hp]
      simp [Real.logb_one]
    rw [this, List.map_const']
    simp

/-- C8 (counterexample): with a null row present the single returned value has
frequency 1/2 (the denominator counts nulls), so exactly one distinct value is
returned yet the entropy is 1/2, not 0. -/
theorem categorical_entropy_null_example :
    catTopValues [some "a", none] = [("a", 1)] ∧
    catFreqs [some "a", none] = [1 / 2] ∧
    -(((catFreqs [some "a", none]).map
        (fun p : ℚ => if 0 < p then (p : ℝ) * Real.logb 2 (p : ℝ) else 0)).sum) = 1 / 2 := by
  have htv : catTopValues [some "a", none] = [("a", 1)] := rfl
  have hfr : catFreqs [some "a", none] = [1 / 2] := by
    unfold catFreqs
    rw [htv]
    norm_num
  refine ⟨htv, hfr, ?_⟩
  rw [hfr]
  simp only [List.map_cons, List.map_nil, List.sum_cons, List.sum_nil, add_zero]
  rw [if_pos (by norm_num : (0 : ℚ) < 1 / 2)]
  have hcast : ((1 / 2 : ℚ) : ℝ) = 1 / 2 := by norm_num
  rw [hcast]
  rw [show (1 / 2 : ℝ) = 2⁻¹ by norm_num, Real.logb_inv,
    Real.logb_self_eq_one (by norm_num)]
  norm_num

/-- C8 (amended): the categorical distribution returns at most 100 top values,
all frequencies lie in `[0, 1]` (computed against the row total including
nulls), the top-K entropy `-Σ p·log2 p` is nonnegative, and it is zero iff no
values are returned or exactly one distinct value is returned with frequency 1
(i.e. it covers every row, nulls included). -/
theorem categorical_distribution_bounds (values : List (Option String)) :
    (catTopValues values).length ≤ 100 ∧
    (∀ p ∈ catFreqs values, 0 ≤ p ∧ p ≤ 1) ∧
    0 ≤ -(((catFreqs values).map
        (fun p : ℚ => if 0 < p then (p : ℝ) * Real.logb 2 (p : ℝ) else 0)).sum) ∧
    (-(((catFreqs values).map
        (fun p : ℚ => if 0 < p then (p : ℝ) * Real.logb 2 (p : ℝ) else 0)).sum) = 0 ↔
      catFreqs values = [] ∨ catFreqs values = [1]) := by
  have hmem : ∀ p ∈ catFreqs values, 0 < p ∧ p ≤ 1 := catFreqs_pos_le_one values
  refine ⟨catTopValues_length_le values, fun p hp => ⟨(hmem p hp).1.le, (hmem p hp).2⟩,
    entropy_nonneg _ hmem, ?_⟩
  rw [entropy_zero_iff _ hmem]
  constructor
  · intro hone
    cases htv : catTopValues values with
    | nil =>
        left
        unfold catFreqs
        rw [htv]
        rfl
    | cons t1 rest =>
        cases rest with
        | nil =>
            right
            unfold catFreqs
            rw [htv, List.map_cons, List.map_nil]
            congr 1
            apply hone
            unfold catFreqs
            rw [htv, List.map_cons]
            exact List.mem_cons_self _ _
        | cons t2 rest2 =>
            exfalso
            have hnd := catTopValues_fst_nodup values
            rw [htv] at hnd
            have hne12 : t1.1 ≠ t2.1 := by
              rw [List.map_cons, List.map_cons, List.nodup_cons] at hnd
              intro he
              exact hnd.1 (he ▸ List.mem_cons_self _ _)
            obtain ⟨hlen, v1, hv1, ht1⟩ := catTopValues_mem values t1
              (by rw [htv]; exact List.mem_cons_self _ _)
            obtain ⟨_, v2, hv2, ht2⟩ := catTopValues_mem values t2
              (by rw [htv]; exact List.mem_cons_of_mem _ (List.mem_cons_self _ _))
            have hn0 : ((values.length : ℚ)) ≠ 0 := by
              exact_mod_cast hlen
            have hq1 : (t1.2 : ℚ) / (values.length : ℚ) = 1 := by
              apply hone
              unfold catFreqs
              rw [htv, List.map_cons]
              exact List.mem_cons_self _ _
            have hq2 : (t2.2 : ℚ) / (values.length : ℚ) = 1 := by
              apply hone
              unfold catFreqs
              rw [htv, List.map_cons, List.map_cons]
              exact List.mem_cons_of_mem _ (List.mem_cons_self _ _)
            have hc1 : t1.2 = values.length := by
              have := (div_eq_one_iff_eq hn0).mp hq1
              exact_mod_cast this
            have hc2 : t2.2 = values.length := by
              have := (div_eq_one_iff_eq hn0).mp hq2
              exact_mod_cast this
            have hcount1 : (values.filterMap id).count v1 = (values.filterMap id).length := by
              have hub := le_trans (List.count_le_length v1 (values.filterMap id))
                (List.length_filterMap_le _ _)
              have h1 : (values.filterMap id).count v1 = values.length := by
                rw [ht1] at hc1
                exact hc1
              have h2 := List.length_filterMap_le id values
              have h3 := List.count_le_length v1 (values.filterMap id)
              omega
            have hcount2 : (values.filterMap id).count v2 = (values.filterMap id).length := by
              have h1 : (values.filterMap id).count v2 = values.length := by
                rw [ht2] at hc2
                exact hc2
              have h2 := List.length_filterMap_le id values
              have h3 := List.count_le_length v2 (values.filterMap id)
              omega
            have hall1 := List.count_eq_length.mp hcount1
            have hall2 := List.count_eq_length.mp hcount2
            have hv12 : v1 = v2 := by
              have ha := hall1 v1 hv1
              have hb := hall2 v1 hv1
              rw [← hb]
            apply hne12
            rw [ht1, ht2, hv12]
  · rintro (h | h) <;> rw [h] <;> intro p hp <;> simp at hp
    exact hp

/-! ## C3: order theory for `sorted`, join injectivity, and the family-id
specification -/

theorem charListLe_total : ∀ (a b : List Char),
    charListLe a b = true ∨ charListLe b a = true := by
  intro a
  induction a with
  | nil => intro b; left; rfl
  | cons x xs ih =>
      intro b
      cases b with
      | nil => right; rfl
      | cons y ys =>
          unfold charListLe
          rcases Nat.lt_trichotomy x.toNat y.toNat with h | h | h
          · left
            rw [if_pos h]
          · rw [if_neg (by omega), if_neg (by omega), if_neg (by omega), if_neg (by omega)]
            exact ih ys
          · right
            rw [if_pos h]

theorem charListLe_trans : ∀ (a b c : List Char), charListLe a b = true →
    charListLe b c = true → charListLe a c = true := by
  intro a
  induction a with
  | nil => intro b c _ _; rfl
  | cons x xs ih =>
      intro b c hab hbc
      cases b with
      | nil => simp [charListLe] at hab
      | cons y ys =>
          cases c with
          | nil => simp [charListLe] at hbc
          | cons z zs =>
              unfold charListLe at hab hbc ⊢
              split_ifs at hab hbc ⊢ <;>
                first
                  | rfl
                  | omega
                  | simp at hab
                  | simp at hbc
                  | exact ih ys zs hab hbc

theorem char_eq_of_toNat_eq (x y : Char) (h : x.toNat = y.toNat) : x = y := by
  have h2 : Char.ofNat x.toNat = Char.ofNat y.toNat := congrArg Char.ofNat h
  rwa [Char.ofNat_toNat, Char.ofNat_toNat] at h2

theorem charListLe_antisymm : ∀ (a b : List Char), charListLe a b = true →
    charListLe b a = true → a = b := by
  intro a
  induction a with
  | nil =>
      intro b hab hba
      cases b with
      | nil => rfl
      | cons y ys => simp [charListLe] at hba
  | cons x xs ih =>
      intro b hab hba
      cases b with
      | nil => simp [charListLe] at hab
      | cons y ys =>
          unfold charListLe at hab hba
          split_ifs at hab hba <;> first
            | omega
            | exact Bool.noConfusion hab
            | exact Bool.noConfusion hba
            | rw [char_eq_of_toNat_eq x y (by omega), ih ys hab hba]

instance : IsTotal String strLe :=
  ⟨fun a b => charListLe_total a.data b.data⟩

instance : IsTrans String strLe :=
  ⟨fun a b c => charListLe_trans a.data b.data c.data⟩

theorem string_ext (a b : String) (h : a.data = b.data) : a = b := by
  cases a
  cases b
  exact congrArg String.mk h

instance : IsAntisymm String strLe :=
  ⟨fun a b hab hba => string_ext a b (charListLe_antisymm a.data b.data hab hba)⟩

theorem pySorted_sorted (l : List String) : List.Sorted strLe (pySorted l) :=
  List.sorted_insertionSort strLe l

theorem pySorted_perm (l : List String) : (pySorted l).Perm l :=
  List.perm_insertionSort strLe l

theorem pySorted_eq_of_perm (l1 l2 : List String) (h : l1.Perm l2) :
    pySorted l1 = pySorted l2 :=
  List.eq_of_perm_of_sorted (((pySorted_perm l1).trans h).trans (pySorted_perm l2).symm)
    (pySorted_sorted l1) (pySorted_sorted l2)

theorem takeWhile_marker (p : Char → Bool) : ∀ (l : List Char) (c : Char) (r : List Char),
    (∀ x ∈ l, p x = true) → p c = false →
    (l ++ c :: r).takeWhile p = l ∧ (l ++ c :: r).dropWhile p = c :: r := by
  intro l
  induction l with
  | nil =>
      intro c r _ hc
      constructor
      · rw [List.nil_append, List.takeWhile_cons_of_neg (by simp [hc])]
      · rw [List.nil_append, List.dropWhile_cons_of_neg (by simp [hc])]
  | cons a l ih =>
      intro c r hl hc
      have ha := hl a (List.mem_cons_self _ _)
      obtain ⟨h1, h2⟩ := ih c r (fun x hx => hl x (List.mem_cons_of_mem _ hx)) hc
      constructor
      · rw [List.cons_append, List.takeWhile_cons_of_pos ha, h1]
      · rw [List.cons_append, List.dropWhile_cons_of_pos ha, h2]

theorem append_marker_inj (p : Char → Bool) (n1 j1 n2 j2 : List Char) (c : Char)
    (hp : p c = false)
    (h1 : ∀ x ∈ j1, p x = true) (h2 : ∀ x ∈ j2, p x = true)
    (heq : n1 ++ c :: j1 = n2 ++ c :: j2) : n1 = n2 ∧ j1 = j2 := by
  have hrev : j1.reverse ++ c :: n1.reverse = j2.reverse ++ c :: n2.reverse := by
    have h := congrArg List.reverse heq
    simpa [List.reverse_append] using h
  have hm1 := takeWhile_marker p j1.reverse c n1.reverse
    (fun x hx => h1 x (List.mem_reverse.mp hx)) hp
  have hm2 := takeWhile_marker p j2.reverse c n2.reverse
    (fun x hx => h2 x (List.mem_reverse.mp hx)) hp
  have hj : j1.reverse = j2.reverse := by
    rw [← hm1.1, ← hm2.1, hrev]
  have hn : (c :: n1.reverse) = (c :: n2.reverse) := by
    rw [← hm1.2, ← hm2.2, hrev]
  constructor
  · have := List.cons_injective hn
    exact List.reverse_injective this
  · exact List.reverse_injective hj

theorem append_marker_inj_left (p : Char → Bool) (n1 j1 n2 j2 : List Char) (c : Char)
    (hp : p c = false)
    (h1 : ∀ x ∈ n1, p x = true) (h2 : ∀ x ∈ n2, p x = true)
    (heq : n1 ++ c :: j1 = n2 ++ c :: j2) : n1 = n2 ∧ j1 = j2 := by
  have hm1 := takeWhile_marker p n1 c j1 h1 hp
  have hm2 := takeWhile_marker p n2 c j2 h2 hp
  have hn : n1 = n2 := by
    rw [← hm1.1, ← hm2.1, heq]
  have hj : c :: j1 = c :: j2 := by
    rw [← hm1.2, ← hm2.2, heq]
  exact ⟨hn, List.cons_injective hj⟩

theorem joinComma_data_cons (a b : String) (r : List String) :
    (joinComma (a :: b :: r)).data = a.data ++ ',' :: (joinComma (b :: r)).data := by
  show (a ++ "," ++ joinComma (b :: r)).data = _
  rw [String.data_append, String.data_append]
  simp

theorem joinComma_no_char (c : Char) (hc : c ≠ ',') : ∀ (l : List String),
    (∀ k ∈ l, c ∉ k.data) → c ∉ (joinComma l).data := by
  intro l
  induction l with
  | nil => intro _; simp [joinComma]
  | cons a r ih =>
      cases r with
      | nil =>
          intro h
          exact h a (List.mem_cons_self _ _)
      | cons b rr =>
          intro h hm
          rw [joinComma_data_cons] at hm
          rcases List.mem_append.mp hm with hm1 | hm1
          · exact h a (List.mem_cons_self _ _) hm1
          · rcases List.mem_cons.mp hm1 with hm2 | hm2
            · exact hc hm2
            · exact ih (fun k hk => h k (List.mem_cons_of_mem _ hk)) hm2

theorem joinComma_ne_empty : ∀ (l : List String), l ≠ [] →
    (∀ k ∈ l, k.data ≠ []) → (joinComma l).data ≠ [] := by
  intro l
  cases l with
  | nil => intro h; exact absurd rfl h
  | cons a r =>
      intro _ h
      cases r with
      | nil => exact h a (List.mem_cons_self _ _)
      | cons b rr =>
          rw [joinComma_data_cons]
          intro he
          have := List.append_eq_nil.mp he
          exact List.cons_ne_nil _ _ this.2

theorem joinComma_inj : ∀ (l1 l2 : List String),
    (∀ k ∈ l1, k.data ≠ [] ∧ (',' : Char) ∉ k.data) →
    (∀ k ∈ l2, k.data ≠ [] ∧ (',' : Char) ∉ k.data) →
    joinComma l1 = joinComma l2 → l1 = l2 := by
  intro l1
  induction l1 with
  | nil =>
      intro l2 _ h2 heq
      cases l2 with
      | nil => rfl
      | cons b rr =>
          exfalso
          apply joinComma_ne_empty (b :: rr) (List.cons_ne_nil _ _)
            (fun k hk => (h2 k hk).1)
          rw [← heq]
          rfl
  | cons a r ih =>
      intro l2 h1 h2 heq
      cases l2 with
      | nil =>
          exfalso
          apply joinComma_ne_empty (a :: r) (List.cons_ne_nil _ _)
            (fun k hk => (h1 k hk).1)
          rw [heq]
          rfl
      | cons b rr =>
          cases r with
          | nil =>
              cases rr with
              | nil =>
                  have : a = b := by
                    have h := congrArg String.data heq
                    exact string_ext a b h
                  rw [this]
              | cons b2 rr2 =>
                  exfalso
                  have h := congrArg String.data heq
                  rw [joinComma_data_cons] at h
                  apply (h1 a (List.mem_cons_self _ _)).2
                  rw [show (joinComma [a]).data = a.data from rfl] at h
                  rw [h]
                  exact List.mem_append.mpr (Or.inr (List.mem_cons_self _ _))
          | cons a2 r2 =>
              cases rr with
              | nil =>
                  exfalso
                  have h := congrArg String.data heq
                  rw [joinComma_data_cons] at h
                  apply (h2 b (List.mem_cons_self _ _)).2
                  rw [show (joinComma [b]).data = b.data from rfl] at h
                  rw [← h]
                  exact List.mem_append.mpr (Or.inr (List.mem_cons_self _ _))
              | cons b2 rr2 =>
                  have h := congrArg String.data heq
                  rw [joinComma_data_cons, joinComma_data_cons] at h
                  obtain ⟨hab, hjj⟩ := append_marker_inj_left (fun x => decide (x ≠ ','))
                    a.data (joinComma (a2 :: r2)).data b.data (joinComma (b2 :: rr2)).data ','
                    (by simp)
                    (fun x hx => by
                      simp only [decide_eq_true_eq]
                      intro he
                      exact (h1 a (List.mem_cons_self _ _)).2 (he ▸ hx))
                    (fun x hx => by
                      simp only [decide_eq_true_eq]
                      intro he
                      exact (h2 b (List.mem_cons_self _ _)).2 (he ▸ hx))
                    h
                  have hab' : a = b := string_ext a b hab
                  have hjoin : joinComma (a2 :: r2) = joinComma (b2 :: rr2) :=
                    string_ext _ _ hjj
                  have htail := ih (b2 :: rr2)
                    (fun k hk => h1 k (List.mem_cons_of_mem _ hk))
                    (fun k hk => h2 k (List.mem_cons_of_mem _ hk)) hjoin
                  rw [hab', htail]

theorem familyString_data_shape (n J : String) :
    ((n ++ "|") ++ J).data = n.data ++ '|' :: J.data := by
  rw [String.data_append, String.data_append]
  rw [show ("|" : String).data = ['|'] from rfl]
  simp

theorem pySorted_ne_nil (l : List String) (hl : l ≠ []) : pySorted l ≠ [] := by
  intro habs
  apply hl
  have := (pySorted_perm l).length_eq
  rw [habs] at this
  exact List.length_eq_zero.mp this.symm

/-- C3 (amended): the family id equals `hex(sha1(utf8(name + "|" + comma-join
of the sorted tag keys)))`, the empty tag set hashing `name + "|"`; the id is a
function of the metric name and the multiset of tag keys only, so tag values,
tag order and record count never affect it; and for tag-key sets as the parser
produces them (keys non-empty, comma-free and pipe-free), two inputs yield the
same pre-hash family string iff their names and key multisets agree (equality
of the hashed ids for distinct family strings would be a SHA-1 collision,
outside this embedding). -/
theorem familyId_spec :
    (∀ (name : String) (tags : List (String × String)),
      computeFamilyId name tags = sha1Hex (utf8Bytes (familyString name tags))) ∧
    (∀ name : String, familyString name [] = name ++ "|") ∧
    (∀ (name : String) (t1 t2 : List (String × String)),
      (t1.map Prod.fst).Perm (t2.map Prod.fst) →
      computeFamilyId name t1 = computeFamilyId name t2) ∧
    (∀ (n1 n2 : String) (t1 t2 : List (String × String)),
      (∀ k ∈ t1.map Prod.fst, k.data ≠ [] ∧ (',' : Char) ∉ k.data ∧ ('|' : Char) ∉ k.data) →
      (∀ k ∈ t2.map Prod.fst, k.data ≠ [] ∧ (',' : Char) ∉ k.data ∧ ('|' : Char) ∉ k.data) →
      familyString n1 t1 = familyString n2 t2 →
      n1 = n2 ∧ (t1.map Prod.fst).Perm (t2.map Prod.fst)) := by
  refine ⟨fun name tags => rfl, ?_, ?_, ?_⟩
  · intro name
    apply string_ext
    show ((name ++ "|") ++ "").data = (name ++ "|").data
    rw [String.data_append, show ("" : String).data = [] from rfl, List.append_nil]
  · intro name t1 t2 hperm
    unfold computeFamilyId
    congr 1
    congr 1
    unfold familyString
    congr 1
    have hlen : t1.length = t2.length := by
      have h := hperm.length_eq
      simpa using h
    by_cases h0 : t1.length = 0
    · rw [if_pos h0, if_pos (by omega)]
    · rw [if_neg h0, if_neg (by omega), pySorted_eq_of_perm _ _ hperm]
  · intro n1 n2 t1 t2 hk1 hk2 heq
    have hdata := congrArg String.data heq
    unfold familyString at hdata
    rw [familyString_data_shape, familyString_data_shape] at hdata
    have hnp : ∀ (t : List (String × String)),
        (∀ k ∈ t.map Prod.fst, k.data ≠ [] ∧ (',' : Char) ∉ k.data ∧ ('|' : Char) ∉ k.data) →
        ('|' : Char) ∉ (if t.length = 0 then "" else
          joinComma (pySorted (t.map (fun kv => kv.1)))).data := by
      intro t hk
      split
      · rw [show ("" : String).data = [] from rfl]
        simp
      · apply joinComma_no_char '|' (by decide)
        intro k hkk
        exact (hk k ((pySorted_perm _).mem_iff.mp hkk)).2.2
    obtain ⟨hn, hJ⟩ := append_marker_inj (fun c => decide (c ≠ '|')) n1.data _ n2.data _ '|'
      (by simp)
      (fun x hx => by
        simp only [decide_eq_true_eq]
        intro he
        exact hnp t1 hk1 (he ▸ hx))
      (fun x hx => by
        simp only [decide_eq_true_eq]
        intro he
        exact hnp t2 hk2 (he ▸ hx))
      hdata
    refine ⟨string_ext _ _ hn, ?_⟩
    by_cases h1 : t1.length = 0
    · by_cases h2 : t2.length = 0
      · rw [List.length_eq_zero.mp h1, List.length_eq_zero.mp h2]
      · exfalso
        rw [if_pos h1, if_neg h2] at hJ
        exact joinComma_ne_empty (pySorted (t2.map (fun kv => kv.1)))
          (pySorted_ne_nil _ (by
            intro habs
            apply h2
            simpa using congrArg List.length habs))
          (fun k hk => (hk2 k ((pySorted_perm _).mem_iff.mp hk)).1)
          (by rw [← hJ])
    · by_cases h2 : t2.length = 0
      · exfalso
        rw [if_neg h1, if_pos h2] at hJ
        exact joinComma_ne_empty (pySorted (t1.map (fun kv => kv.1)))
          (pySorted_ne_nil _ (by
            intro habs
            apply h1
            simpa using congrArg List.length habs))
          (fun k hk => (hk1 k ((pySorted_perm _).mem_iff.mp hk)).1)
          (by rw [hJ])
      · rw [if_neg h1, if_neg h2] at hJ
        have hsorted : pySorted (t1.map (fun kv => kv.1)) = pySorted (t2.map (fun kv => kv.1)) := by
          apply joinComma_inj
          · intro k hk
            exact ⟨(hk1 k ((pySorted_perm _).mem_iff.mp hk)).1,
                   (hk1 k ((pySorted_perm _).mem_iff.mp hk)).2.1⟩
          · intro k hk
            exact ⟨(hk2 k ((pySorted_perm _).mem_iff.mp hk)).1,
                   (hk2 k ((pySorted_perm _).mem_iff.mp hk)).2.1⟩
          · exact string_ext _ _ hJ
        have p1 := (pySorted_perm (t1.map (fun kv => kv.1))).symm
        rw [hsorted] at p1
        exact p1.trans (pySorted_perm _)

/-- C3 witness: the amended statement applied at concrete inputs — identical
key multisets in different order (with different values) give the same id, and
identical family strings force identical names and key multisets. -/
theorem familyId_spec_witness :
    computeFamilyId "m" [("a", "1"), ("b", "2")] = computeFamilyId "m" [("b", "x"), ("a", "y")] ∧
    ("m" = "m" ∧ (([("a", "1")] : List (String × String)).map Prod.fst).Perm
      (([("a", "2")] : List (String × String)).map Prod.fst)) :=
  ⟨familyId_spec.2.2.1 "m" [("a", "1"), ("b", "2")] [("b", "x"), ("a", "y")]
      (by show (["a", "b"] : List String).Perm ["b", "a"]
          exact List.Perm.swap "b" "a" []),
   familyId_spec.2.2.2 "m" "m" [("a", "1")] [("a", "2")] (by decide) (by decide) (by decide)⟩

/-! ## C5: the histogram line form -/

theorem string_mk_data (s : String) : String.mk s.data = s := by
  cases s
  rfl

theorem takeWhile_all (p : Char → Bool) : ∀ (l : List Char), (∀ x ∈ l, p x = true) →
    l.takeWhile p = l := by
  intro l
  induction l with
  | nil => intro _; rfl
  | cons a r ih =>
      intro h
      rw [List.takeWhile_cons_of_pos (h a (List.mem_cons_self _ _)),
        ih (fun x hx => h x (List.mem_cons_of_mem _ hx))]

theorem isPySpace_of_digit (c : Char) (h : isDigitC c = true) : isPySpace c = false := by
  unfold isPySpace
  simp only [Bool.or_eq_false_iff, decide_eq_false_iff_not]
  refine ⟨⟨⟨⟨⟨?_, ?_⟩, ?_⟩, ?_⟩, ?_⟩, ?_⟩ <;>
    (intro he; subst he; exact absurd h (by decide))

theorem all_mem_of_all (p : Char → Bool) (l : List Char) (h : l.all p = true) :
    ∀ x ∈ l, p x = true :=
  List.all_eq_true.mp h

theorem stripChars_eq_self (l : List Char)
    (hh : ∀ c, l.head? = some c → isPySpace c = false)
    (hl : ∀ c, l.getLast? = some c → isPySpace c = false) : stripChars l = l := by
  unfold stripChars
  have h1 : l.dropWhile isPySpace = l := by
    cases l with
    | nil => rfl
    | cons a r => exact List.dropWhile_cons_of_neg (by simp [hh a rfl])
  rw [h1]
  have h2 : l.reverse.dropWhile isPySpace = l.reverse := by
    cases hr : l.reverse with
    | nil => rfl
    | cons a r =>
        have hga : l.getLast? = some a := by
          rw [← List.head?_reverse, hr]
          rfl
        exact List.dropWhile_cons_of_neg (by simp [hl a hga])
  rw [h2, List.reverse_reverse]

theorem histoTail_spec (cnt rest : String)
    (hcnt : cnt.data ≠ []) (hcd : cnt.data.all isDigitC = true)
    (hrne : rest.data ≠ [])
    (hrh : ∀ c, rest.data.head? = some c → isPySpace c = false)
    (hrnl : ∀ c ∈ rest.data, c ≠ '\n') :
    histoTail (cnt.data ++ ' ' :: rest.data) = some (cnt, rest) := by
  obtain ⟨rh, rt, hrd⟩ := List.exists_cons_of_ne_nil hrne
  have h1 : (cnt.data ++ ' ' :: rest.data).takeWhile isDigitC = cnt.data :=
    (takeWhile_marker isDigitC cnt.data ' ' rest.data (all_mem_of_all _ _ hcd) (by rfl)).1
  unfold histoTail
  rw [h1, List.drop_left]
  rw [if_neg (fun h0 => hcnt (List.length_eq_zero.mp h0))]
  have h3 : (' ' :: rest.data).takeWhile isPySpace = [' '] := by
    rw [hrd]
    exact (takeWhile_marker isPySpace [' '] rh rt
      (by intro x hx; simp at hx; rw [hx]; rfl)
      (hrh rh (by rw [hrd]; rfl))).1
  rw [h3]
  rw [if_neg (by simp)]
  rw [show (' ' :: rest.data).drop [' '].length = rest.data from rfl]
  rw [takeWhile_all _ _ (fun x hx => by simp [hrnl x hx])]

theorem data_mk (l : List Char) : (String.mk l).data = l := rfl

theorem digit_ne_hash (c : Char) (h : isDigitC c = true) : ¬(c = '#') := by
  intro he
  subst he
  exact absurd h (by decide)

theorem head_mem_take_one (l : List Char) (c : Char) (h : l.head? = some c) :
    c ∈ l.take 1 := by
  cases l with
  | nil => exact absurd h (by simp)
  | cons a r =>
      simp only [List.head?_cons, Option.some.injEq] at h
      subst h
      simp

theorem mkHisto_eval (d : String) (t? : Option String) (cnt rest t : String) :
    mkHisto ⟨d, t?, cnt, rest⟩ t =
      { granularity := d
        timestamp := t?.map digitsValS
        count := digitsValS cnt
        centroids := parseCentroids (pySplit rest)
        line_length := t.length } := rfl

/-- The timestamp-present continuation of the histogram pattern succeeds on a
well-formed `#<count> <rest>` tail separated by a single blank. -/
theorem histoTs_form (g : Char) (ts cnt rest : String)
    (hcne : cnt.data ≠ []) (hcd : cnt.data.all isDigitC = true)
    (hrne : rest.data ≠ [])
    (hrh : ∀ c, rest.data.head? = some c → isPySpace c = false)
    (hrnl : ∀ c ∈ rest.data, c ≠ '\n') :
    histoTs g ts.data (' ' :: '#' :: (cnt.data ++ ' ' :: rest.data)) =
      some ⟨String.mk ['!', g], some ts, cnt, rest⟩ := by
  have h1 : ((' ' :: '#' :: (cnt.data ++ ' ' :: rest.data)).takeWhile isPySpace) = [' '] :=
    (takeWhile_marker isPySpace [' '] '#' (cnt.data ++ ' ' :: rest.data)
      (fun x hx => by simp at hx; rw [hx]; rfl) rfl).1
  unfold histoTs
  rw [h1]
  show (histoTail (cnt.data ++ ' ' :: rest.data)).map
      (fun p => (⟨String.mk ['!', g], some (String.mk ts.data), p.1, p.2⟩ : HistoGroups)) =
    some ⟨String.mk ['!', g], some ts, cnt, rest⟩
  rw [histoTail_spec cnt rest hcne hcd hrne hrh hrnl]
  rfl

/-- `HISTOGRAM_PATTERN` matches the timestamped line form, capturing the
directive, timestamp, count and tail. -/
theorem histoMatch_ts_form (g : Char) (ts cnt rest : String)
    (hg : g = 'M' ∨ g = 'H' ∨ g = 'D')
    (htne : ts.data ≠ []) (htd : ts.data.all isDigitC = true)
    (hcne : cnt.data ≠ []) (hcd : cnt.data.all isDigitC = true)
    (hrne : rest.data ≠ [])
    (hrh : ∀ c, rest.data.head? = some c → isPySpace c = false)
    (hrnl : ∀ c ∈ rest.data, c ≠ '\n') :
    histoMatch (String.mk
        ('!' :: g :: ' ' :: (ts.data ++ ' ' :: '#' :: (cnt.data ++ ' ' :: rest.data)))) =
      some ⟨String.mk ['!', g], some ts, cnt, rest⟩ := by
  obtain ⟨th, tt, hts⟩ := List.exists_cons_of_ne_nil htne
  have hthd : isDigitC th = true :=
    all_mem_of_all _ _ htd th (by rw [hts]; exact List.mem_cons_self _ _)
  have hgb : (g = 'M' || g = 'H' || g = 'D') = true := by
    rcases hg with h | h | h <;> simp [h]
  have h1 : ((' ' :: (ts.data ++ ' ' :: '#' :: (cnt.data ++ ' ' :: rest.data))).takeWhile
      isPySpace) = [' '] := by
    rw [hts, List.cons_append]
    exact (takeWhile_marker isPySpace [' ']
      th (tt ++ ' ' :: '#' :: (cnt.data ++ ' ' :: rest.data))
      (fun x hx => by simp at hx; rw [hx]; rfl) (isPySpace_of_digit th hthd)).1
  have h2 : ((' ' :: (ts.data ++ ' ' :: '#' :: (cnt.data ++ ' ' :: rest.data))).drop
      ([' '] : List Char).length) =
      ts.data ++ ' ' :: '#' :: (cnt.data ++ ' ' :: rest.data) := rfl
  generalize hR :
    (' ' :: (ts.data ++ ' ' :: '#' :: (cnt.data ++ ' ' :: rest.data)) : List Char) = R
  rw [hR] at h1 h2
  unfold histoMatch
  show (if g = 'M' || g = 'H' || g = 'D' then
      if (R.takeWhile isPySpace).length = 0 then none
      else
        match R.drop (R.takeWhile isPySpace).length with
        | c :: r2' =>
            if c = '#' then
              if (R.takeWhile isPySpace).length < 2 then none
              else (histoTail r2').map (fun p => ⟨String.mk ['!', g], none, p.1, p.2⟩)
            else if isDigitC c then
              histoTs g ((c :: r2').takeWhile isDigitC)
                ((c :: r2').drop ((c :: r2').takeWhile isDigitC).length)
            else none
        | [] => none
    else none) = some ⟨String.mk ['!', g], some ts, cnt, rest⟩
  rw [if_pos hgb, h1]
  rw [if_neg (by simp)]
  rw [h2]
  rw [hts, List.cons_append]
  show (if th = '#' then
      if (([' '] : List Char)).length < 2 then none
      else (histoTail (tt ++ ' ' :: '#' :: (cnt.data ++ ' ' :: rest.data))).map
        (fun p => (⟨String.mk ['!', g], none, p.1, p.2⟩ : HistoGroups))
    else if isDigitC th then
      histoTs g ((th :: (tt ++ ' ' :: '#' :: (cnt.data ++ ' ' :: rest.data))).takeWhile isDigitC)
        ((th :: (tt ++ ' ' :: '#' :: (cnt.data ++ ' ' :: rest.data))).drop
          ((th :: (tt ++ ' ' :: '#' :: (cnt.data ++ ' ' :: rest.data))).takeWhile isDigitC).length)
    else none) = some ⟨String.mk ['!', g], some ts, cnt, rest⟩
  rw [if_neg (digit_ne_hash th hthd), if_pos hthd]
  have h3 : ((th :: (tt ++ ' ' :: '#' :: (cnt.data ++ ' ' :: rest.data))).takeWhile isDigitC) =
      ts.data := by
    rw [← List.cons_append, ← hts]
    exact (takeWhile_marker isDigitC ts.data ' ' ('#' :: (cnt.data ++ ' ' :: rest.data))
      (all_mem_of_all _ _ htd) rfl).1
  rw [h3]
  have h4 : ((th :: (tt ++ ' ' :: '#' :: (cnt.data ++ ' ' :: rest.data))).drop ts.data.length) =
      ' ' :: '#' :: (cnt.data ++ ' ' :: rest.data) := by
    rw [← List.cons_append, ← hts]
    exact List.drop_left _ _
  rw [h4]
  exact histoTs_form g ts cnt rest hcne hcd hrne hrh hrnl

/-- `HISTOGRAM_PATTERN` matches the timestampless line form (two blanks before
`#`), capturing the directive, count and tail, with no timestamp group. -/
theorem histoMatch_nots_form (g : Char) (cnt rest : String)
    (hg : g = 'M' ∨ g = 'H' ∨ g = 'D')
    (hcne : cnt.data ≠ []) (hcd : cnt.data.all isDigitC = true)
    (hrne : rest.data ≠ [])
    (hrh : ∀ c, rest.data.head? = some c → isPySpace c = false)
    (hrnl : ∀ c ∈ rest.data, c ≠ '\n') :
    histoMatch (String.mk ('!' :: g :: ' ' :: ' ' :: '#' :: (cnt.data ++ ' ' :: rest.data))) =
      some ⟨String.mk ['!', g], none, cnt, rest⟩ := by
  have hgb : (g = 'M' || g = 'H' || g = 'D') = true := by
    rcases hg with h | h | h <;> simp [h]
  have h1 : ((' ' :: ' ' :: '#' :: (cnt.data ++ ' ' :: rest.data)).takeWhile isPySpace) =
      [' ', ' '] :=
    (takeWhile_marker isPySpace [' ', ' '] '#' (cnt.data ++ ' ' :: rest.data)
      (fun x hx => by simp at hx; rw [hx]; rfl) rfl).1
  have h2 : ((' ' :: ' ' :: '#' :: (cnt.data ++ ' ' :: rest.data)).drop
      ([' ', ' '] : List Char).length) = '#' :: (cnt.data ++ ' ' :: rest.data) := rfl
  generalize hR : (' ' :: ' ' :: '#' :: (cnt.data ++ ' ' :: rest.data) : List Char) = R
  rw [hR] at h1 h2
  unfold histoMatch
  show (if g = 'M' || g = 'H' || g = 'D' then
      if (R.takeWhile isPySpace).length = 0 then none
      else
        match R.drop (R.takeWhile isPySpace).length with
        | c :: r2' =>
            if c = '#' then
              if (R.takeWhile isPySpace).length < 2 then none
              else (histoTail r2').map (fun p => ⟨String.mk ['!', g], none, p.1, p.2⟩)
            else if isDigitC c then
              histoTs g ((c :: r2').takeWhile isDigitC)
                ((c :: r2').drop ((c :: r2').takeWhile isDigitC).length)
            else none
        | [] => none
    else none) = some ⟨String.mk ['!', g], none, cnt, rest⟩
  rw [if_pos hgb, h1]
  rw [if_neg (by simp)]
  rw [h2]
  show (if ('#' : Char) = '#' then
      if (([' ', ' '] : List Char)).length < 2 then none
      else (histoTail (cnt.data ++ ' ' :: rest.data)).map
        (fun p => (⟨String.mk ['!', g], none, p.1, p.2⟩ : HistoGroups))
    else if isDigitC '#' then
      histoTs g (('#' :: (cnt.data ++ ' ' :: rest.data)).takeWhile isDigitC)
        (('#' :: (cnt.data ++ ' ' :: rest.data)).drop
          (('#' :: (cnt.data ++ ' ' :: rest.data)).takeWhile isDigitC).length)
    else none) = some ⟨String.mk ['!', g], none, cnt, rest⟩
  rw [if_pos rfl]
  rw [if_neg (by norm_num)]
  rw [histoTail_spec cnt rest hcne hcd hrne hrh hrnl]
  rfl

/-- C5 (amended): every line `<directive> <timestamp> #<count> <rest>` whose
directive is a minute/hour/day marker, whose timestamp and count are non-empty
digit runs, and whose remainder is newline-free and neither starts nor ends in
whitespace, parses as a histogram record; the timestampless form needs two
blanks between the directive and `#` (a single blank drops the line, see the
counterexample).  The centroids are consumed greedily from the
whitespace-split remainder as `(int, float)` pairs, stopping at the first pair
that fails to parse and returning the partial list without an error. -/
theorem parseLine_histogram_form (g : Char) (ts cnt rest : String)
    (hg : g = 'M' ∨ g = 'H' ∨ g = 'D')
    (htne : ts.data ≠ []) (htd : ts.data.all isDigitC = true)
    (hcne : cnt.data ≠ []) (hcd : cnt.data.all isDigitC = true)
    (hrne : rest.data ≠ [])
    (hrh : ∀ c ∈ rest.data.take 1, isPySpace c = false)
    (hrl : ∀ c ∈ rest.data.reverse.take 1, isPySpace c = false)
    (hrnl : ∀ c ∈ rest.data, c ≠ '\n') :
    parseLine (String.mk
        ('!' :: g :: ' ' :: (ts.data ++ ' ' :: '#' :: (cnt.data ++ ' ' :: rest.data)))) =
      some (.histogram
        { granularity := String.mk ['!', g]
          timestamp := some (digitsValS ts)
          count := digitsValS cnt
          centroids := parseCentroids (pySplit rest)
          line_length := ts.data.length + cnt.data.length + rest.data.length + 6 }) ∧
    parseLine (String.mk ('!' :: g :: ' ' :: ' ' :: '#' :: (cnt.data ++ ' ' :: rest.data))) =
      some (.histogram
        { granularity := String.mk ['!', g]
          timestamp := none
          count := digitsValS cnt
          centroids := parseCentroids (pySplit rest)
          line_length := cnt.data.length + rest.data.length + 6 }) ∧
    (∀ a b l c v, pyInt? a = some c → pyFloat? b = some v →
        parseCentroids (a :: b :: l) = (c, v) :: parseCentroids l) ∧
    (∀ a b l, pyInt? a = none ∨ pyFloat? b = none → parseCentroids (a :: b :: l) = []) ∧
    (∀ a, parseCentroids [a] = []) ∧ parseCentroids ([] : List String) = [] := by
  have hrh' : ∀ c, rest.data.head? = some c → isPySpace c = false :=
    fun c hc => hrh c (head_mem_take_one _ _ hc)
  have hrl' : ∀ c, rest.data.getLast? = some c → isPySpace c = false :=
    fun c hc => hrl c (head_mem_take_one _ _ (by rw [List.head?_reverse]; exact hc))
  refine ⟨?_, ?_, ?_, ?_, ?_, ?_⟩
  · have hmatch := histoMatch_ts_form g ts cnt rest hg htne htd hcne hcd hrne hrh' hrnl
    have hgl : ('!' :: g :: ' ' ::
        (ts.data ++ ' ' :: '#' :: (cnt.data ++ ' ' :: rest.data))).getLast? =
        rest.data.getLast? := by
      rw [show ('!' :: g :: ' ' :: (ts.data ++ ' ' :: '#' :: (cnt.data ++ ' ' :: rest.data)))
          = (['!', g, ' '] ++ ts.data ++ [' ', '#'] ++ cnt.data ++ [' ']) ++ rest.data by simp,
        List.getLast?_append_of_ne_nil _ hrne]
    have hstrip : pyStrip (String.mk
        ('!' :: g :: ' ' :: (ts.data ++ ' ' :: '#' :: (cnt.data ++ ' ' :: rest.data)))) =
        String.mk ('!' :: g :: ' ' ::
          (ts.data ++ ' ' :: '#' :: (cnt.data ++ ' ' :: rest.data))) := by
      unfold pyStrip
      rw [data_mk, stripChars_eq_self]
      · intro c hc
        simp only [List.head?_cons, Option.some.injEq] at hc
        subst hc
        rfl
      · intro c hc
        rw [hgl] at hc
        exact hrl' c hc
    have hlen : (String.mk
        ('!' :: g :: ' ' :: (ts.data ++ ' ' :: '#' :: (cnt.data ++ ' ' :: rest.data)))).length =
        ts.data.length + cnt.data.length + rest.data.length + 6 := by
      show ('!' :: g :: ' ' ::
        (ts.data ++ ' ' :: '#' :: (cnt.data ++ ' ' :: rest.data))).length = _
      simp only [List.length_cons, List.length_append]
      omega
    unfold parseLine
    rw [hstrip]
    unfold parseLineStripped
    rw [data_mk]
    rw [if_neg (by simp)]
    have hhash : startsWithHash (String.mk
        ('!' :: g :: ' ' :: (ts.data ++ ' ' :: '#' :: (cnt.data ++ ' ' :: rest.data)))) =
        false := rfl
    rw [if_neg (by rw [hhash]; exact Bool.false_ne_true)]
    rw [hmatch]
    show some (Record.histogram (mkHisto ⟨String.mk ['!', g], some ts, cnt, rest⟩
        (String.mk ('!' :: g :: ' ' ::
          (ts.data ++ ' ' :: '#' :: (cnt.data ++ ' ' :: rest.data)))))) = _
    rw [mkHisto_eval, hlen]
    rfl
  · have hmatch := histoMatch_nots_form g cnt rest hg hcne hcd hrne hrh' hrnl
    have hgl : ('!' :: g :: ' ' :: ' ' :: '#' :: (cnt.data ++ ' ' :: rest.data)).getLast? =
        rest.data.getLast? := by
      rw [show ('!' :: g :: ' ' :: ' ' :: '#' :: (cnt.data ++ ' ' :: rest.data))
          = (['!', g, ' ', ' ', '#'] ++ cnt.data ++ [' ']) ++ rest.data by simp,
        List.getLast?_append_of_ne_nil _ hrne]
    have hstrip : pyStrip (String.mk
        ('!' :: g :: ' ' :: ' ' :: '#' :: (cnt.data ++ ' ' :: rest.data))) =
        String.mk ('!' :: g :: ' ' :: ' ' :: '#' :: (cnt.data ++ ' ' :: rest.data)) := by
      unfold pyStrip
      rw [data_mk, stripChars_eq_self]
      · intro c hc
        simp only [List.head?_cons, Option.some.injEq] at hc
        subst hc
        rfl
      · intro c hc
        rw [hgl] at hc
        exact hrl' c hc
    have hlen : (String.mk
        ('!' :: g :: ' ' :: ' ' :: '#' :: (cnt.data ++ ' ' :: rest.data))).length =
        cnt.data.length + rest.data.length + 6 := by
      show ('!' :: g :: ' ' :: ' ' :: '#' :: (cnt.data ++ ' ' :: rest.data)).length = _
      simp only [List.length_cons, List.length_append]
      omega
    unfold parseLine
    rw [hstrip]
    unfold parseLineStripped
    rw [data_mk]
    rw [if_neg (by simp)]
    have hhash : startsWithHash (String.mk
        ('!' :: g :: ' ' :: ' ' :: '#' :: (cnt.data ++ ' ' :: rest.data))) = false := rfl
    rw [if_neg (by rw [hhash]; exact Bool.false_ne_true)]
    rw [hmatch]
    show some (Record.histogram (mkHisto ⟨String.mk ['!', g], none, cnt, rest⟩
        (String.mk ('!' :: g :: ' ' :: ' ' :: '#' :: (cnt.data ++ ' ' :: rest.data))))) = _
    rw [mkHisto_eval, hlen]
    rfl
  · intro a b l c v h1 h2
    simp only [parseCentroids]
    rw [h1, h2]
  · intro a b l h
    simp only [parseCentroids]
    rcases h with h | h
    · rw [h]
    · rw [h]
      cases hi : pyInt? a <;> rfl
  · intro a
    rfl
  · rfl

/-- C5 witness: the amended statement applied at a concrete histogram line in
both forms (`!M 1234567890 #2 1 2.5` and `!M  #2 1 2.5`). -/
theorem parseLine_histogram_form_witness :
    parseLine (String.mk ('!' :: 'M' :: ' ' ::
        ("1234567890".data ++ ' ' :: '#' :: ("2".data ++ ' ' :: "1 2.5".data)))) =
      some (.histogram
        { granularity := String.mk ['!', 'M']
          timestamp := some (digitsValS "1234567890")
          count := digitsValS "2"
          centroids := parseCentroids (pySplit "1 2.5")
          line_length := "1234567890".data.length + "2".data.length + "1 2.5".data.length + 6 }) ∧
    parseLine (String.mk ('!' :: 'M' :: ' ' :: ' ' :: '#' :: ("2".data ++ ' ' :: "1 2.5".data))) =
      some (.histogram
        { granularity := String.mk ['!', 'M']
          timestamp := none
          count := digitsValS "2"
          centroids := parseCentroids (pySplit "1 2.5")
          line_length := "2".data.length + "1 2.5".data.length + 6 }) :=
  ⟨(parseLine_histogram_form 'M' "1234567890" "2" "1 2.5" (Or.inl rfl) (by decide) (by decide)
      (by decide) (by decide) (by decide) (by decide) (by decide) (by decide)).1,
   (parseLine_histogram_form 'M' "1234567890" "2" "1 2.5" (Or.inl rfl) (by decide) (by decide)
      (by decide) (by decide) (by decide) (by decide) (by decide) (by decide)).2.1⟩

/-! ## C1: when `parse_line` returns no record -/

theorem parseLineStripped_none_iff (t : String) :
    parseLineStripped t = none ↔
      t.data = [] ∨ startsWithHash t = true ∨
      (histoMatch t = none ∧ spanMatch t = none ∧ parseMetric t = Except.ok none) := by
  unfold parseLineStripped
  by_cases h0 : t.data.length = 0
  · rw [if_pos h0]
    simp [List.length_eq_zero.mp h0]
  · have h0' : ¬(t.data = []) := fun he => h0 (by rw [he]; rfl)
    rw [if_neg h0]
    by_cases h1 : startsWithHash t = true
    · rw [if_pos h1]
      simp [h1]
    · rw [if_neg h1]
      cases hh : histoMatch t with
      | some G => simp [h0', h1]
      | none =>
          cases hs : spanMatch t with
          | some G => simp [h0', h1]
          | none =>
              cases hm : parseMetric t with
              | ok o =>
                  cases o with
                  | none => simp [h0', h1]
                  | some m => simp [h0', h1]
              | error e => simp [h0', h1]

theorem parseMetric_ok_none_iff (t : String) (p0 p1 p2 : String) (rest : List String)
    (hsp : pySplit t = p0 :: p1 :: p2 :: rest) :
    parseMetric t = Except.ok none ↔
      metricNameRes p0 = NameRes.noMatch ∨
      (∃ n, metricNameRes p0 = NameRes.name n ∧ pyFloat? p1 = none) ∨
      (∃ n v, metricNameRes p0 = NameRes.name n ∧ pyFloat? p1 = some v ∧
        findSource (joinSpace (p2 :: rest)) = none) := by
  unfold parseMetric
  rw [hsp]
  cases hn : metricNameRes p0 with
  | noMatch => simp [hn]
  | raiseErr => simp [hn]
  | name n0 =>
      cases hf : pyFloat? p1 with
      | none => simp [hn, hf]
      | some v =>
          unfold metricWithSource
          cases hfs : findSource (joinSpace (p2 :: rest)) with
          | none => simp [hn, hf, hfs]
          | some p =>
              obtain ⟨src, a, b⟩ := p
              simp [hn, hf, hfs]

theorem parseMetric_short (t : String) (h : (pySplit t).length < 3) :
    parseMetric t = Except.ok none := by
  unfold parseMetric
  cases hsp : pySplit t with
  | nil => rfl
  | cons p0 r =>
      cases r with
      | nil => rfl
      | cons p1 r2 =>
          cases r2 with
          | nil => rfl
          | cons p2 rest =>
              rw [hsp] at h
              simp at h
              omega

/-- C1 (amended): `parse_line` is a total function into at most one record, but
`None` is not reserved to blank and comment lines: after stripping, the result
is `None` exactly when the line is empty, starts with `#`, or matches neither
the histogram nor the span pattern and falls through the metric path's silent
`return None`s — fewer than three whitespace-separated tokens, a first token
the metric-name pattern cannot match, a second token that is not a float, or a
remainder with no `source=` tag (the counterexample `"x 1 host=a"` is such a
dropped non-blank, non-comment line). -/
theorem parseLine_none_iff (s : String) :
    (parseLine s = none ↔
      (pyStrip s).data = [] ∨ startsWithHash (pyStrip s) = true ∨
      (histoMatch (pyStrip s) = none ∧ spanMatch (pyStrip s) = none ∧
        parseMetric (pyStrip s) = Except.ok none)) ∧
    (∀ p0 p1 p2 rest, pySplit (pyStrip s) = p0 :: p1 :: p2 :: rest →
      (parseMetric (pyStrip s) = Except.ok none ↔
        metricNameRes p0 = NameRes.noMatch ∨
        (∃ n, metricNameRes p0 = NameRes.name n ∧ pyFloat? p1 = none) ∨
        (∃ n v, metricNameRes p0 = NameRes.name n ∧ pyFloat? p1 = some v ∧
          findSource (joinSpace (p2 :: rest)) = none))) ∧
    ((pySplit (pyStrip s)).length < 3 → parseMetric (pyStrip s) = Except.ok none) := by
  refine ⟨?_, ?_, ?_⟩
  · unfold parseLine
    exact parseLineStripped_none_iff (pyStrip s)
  · intro p0 p1 p2 rest hsp
    exact parseMetric_ok_none_iff (pyStrip s) p0 p1 p2 rest hsp
  · intro h
    exact parseMetric_short (pyStrip s) h

/-- C1 witness: the amended characterization applied at the concrete dropped
line `"x 1 host=a"` (no `source=` tag) and at the short line `"x"`. -/
theorem parseLine_none_iff_witness :
    (histoMatch (pyStrip "x 1 host=a") = none ∧ spanMatch (pyStrip "x 1 host=a") = none ∧
      parseMetric (pyStrip "x 1 host=a") = Except.ok none) ∧
    parseMetric (pyStrip "x") = Except.ok none :=
  ⟨(((parseLine_none_iff "x 1 host=a").1.mp rfl).resolve_left (by decide)).resolve_left
      (by decide),
   (parseLine_none_iff "x").2.2 (by decide)⟩

end Wavefront
